import Mathlib

/-!
Verification development for the knowledge-graph construction and querying
engine of the `local-rag` repository (files `src/storage/knowledge_graph.py`
and `src/storage/neo4j_graph.py`).

The Python code is shallowly embedded: pure functions become Lean functions,
the Neo4j store becomes an explicit graph value threaded through the
operations, Python floats are modelled as exact rationals (reals where a
square root occurs), and `datetime.utcnow().isoformat()` is modelled by an
explicit `now : String` parameter.  Failures that the code catches
(`except Neo4jError`) are modelled by an explicit error flag supplied by the
environment.
-/

namespace LocalRag

/-- `EntityType(str, Enum)` from `knowledge_graph.py`. -/
inductive EntityType where
  | PERSON
  | ORGANIZATION
  | CONCEPT
  | LOCATION
  | TECHNOLOGY
  | PROJECT
  | EVENT
  | DOCUMENT
  | CHUNK
deriving DecidableEq, Repr

/-- The `.value` string of an `EntityType` member. -/
def EntityType.value : EntityType → String
  | .PERSON => "PERSON"
  | .ORGANIZATION => "ORGANIZATION"
  | .CONCEPT => "CONCEPT"
  | .LOCATION => "LOCATION"
  | .TECHNOLOGY => "TECHNOLOGY"
  | .PROJECT => "PROJECT"
  | .EVENT => "EVENT"
  | .DOCUMENT => "DOCUMENT"
  | .CHUNK => "CHUNK"

/-- `RelationType(str, Enum)` from `knowledge_graph.py`. -/
inductive RelationType where
  | MENTIONS
  | RELATES_TO
  | PART_OF
  | SIMILAR_TO
  | CAUSES
  | TEMPORAL_BEFORE
  | TEMPORAL_AFTER
  | CO_OCCURS
  | REFERENCES
  | DEFINES
deriving DecidableEq, Repr

/-- The `.value` string of a `RelationType` member. -/
def RelationType.value : RelationType → String
  | .MENTIONS => "MENTIONS"
  | .RELATES_TO => "RELATES_TO"
  | .PART_OF => "PART_OF"
  | .SIMILAR_TO => "SIMILAR_TO"
  | .CAUSES => "CAUSES"
  | .TEMPORAL_BEFORE => "TEMPORAL_BEFORE"
  | .TEMPORAL_AFTER => "TEMPORAL_AFTER"
  | .CO_OCCURS => "CO_OCCURS"
  | .REFERENCES => "REFERENCES"
  | .DEFINES => "DEFINES"

/-- A property value stored on a Neo4j node (only the shapes the code writes). -/
inductive Val where
  | str (s : String)
  | num (q : ℚ)
  | natv (n : Nat)
  | null
deriving DecidableEq, Repr

/-- The `Entity` dataclass.  `__post_init__` defaults (`properties = {}`,
`first_seen`/`last_seen` set to `datetime.utcnow().isoformat()`) are applied
at construction time, with the wall clock passed in as a `now` string. -/
structure Entity where
  id : String
  name : String
  entity_type : EntityType
  description : Option String := none
  confidence : ℚ := 1
  first_seen : String
  last_seen : String
  mention_count : Nat := 1
  properties : List (String × Val) := []
deriving DecidableEq, Repr

/-- The `Relationship` dataclass, with `__post_init__` defaults applied at
construction time (`timestamp` defaults to the wall clock `now`). -/
structure Relationship where
  source_id : String
  target_id : String
  relation_type : RelationType
  confidence : ℚ := 1
  weight : ℚ := 1
  properties : List (String × Val) := []
  timestamp : String
deriving DecidableEq, Repr

/-! ### MD5 (`hashlib.md5(...).hexdigest()`)

Entity ids are the first 12 hex characters of the MD5 digest of
`f"{name}_{type}"`.  The hash is implemented on `Nat` with explicit
`% 2^32` truncation. -/

/-- 2^32, the word modulus of MD5. -/
def M32 : Nat := 4294967296

/-- 32-bit addition. -/
def add32 (a b : Nat) : Nat := (a + b) % M32

/-- 32-bit complement (for inputs below 2^32). -/
def not32 (a : Nat) : Nat := (M32 - 1) - a % M32

/-- 32-bit left rotation (for inputs below 2^32 and `n ≤ 32`). -/
def rotl32 (x n : Nat) : Nat := ((x <<< n) % M32) + (x >>> (32 - n))

/-- The 64 MD5 sine-derived constants `K[i] = floor(2^32 * |sin(i+1)|)`. -/
def md5K : List Nat :=
  [0xd76aa478, 0xe8c7b756, 0x242070db, 0xc1bdceee,
   0xf57c0faf, 0x4787c62a, 0xa8304613, 0xfd469501,
   0x698098d8, 0x8b44f7af, 0xffff5bb1, 0x895cd7be,
   0x6b901122, 0xfd987193, 0xa679438e, 0x49b40821,
   0xf61e2562, 0xc040b340, 0x265e5a51, 0xe9b6c7aa,
   0xd62f105d, 0x02441453, 0xd8a1e681, 0xe7d3fbc8,
   0x21e1cde6, 0xc33707d6, 0xf4d50d87, 0x455a14ed,
   0xa9e3e905, 0xfcefa3f8, 0x676f02d9, 0x8d2a4c8a,
   0xfffa3942, 0x8771f681, 0x6d9d6122, 0xfde5380c,
   0xa4beea44, 0x4bdecfa9, 0xf6bb4b60, 0xbebfbc70,
   0x289b7ec6, 0xeaa127fa, 0xd4ef3085, 0x04881d05,
   0xd9d4d039, 0xe6db99e5, 0x1fa27cf8, 0xc4ac5665,
   0xf4292244, 0x432aff97, 0xab9423a7, 0xfc93a039,
   0x655b59c3, 0x8f0ccc92, 0xffeff47d, 0x85845dd1,
   0x6fa87e4f, 0xfe2ce6e0, 0xa3014314, 0x4e0811a1,
   0xf7537e82, 0xbd3af235, 0x2ad7d2bb, 0xeb86d391]

/-- The 64 MD5 per-round left-rotation amounts. -/
def md5S : List Nat :=
  [7, 12, 17, 22, 7, 12, 17, 22, 7, 12, 17, 22, 7, 12, 17, 22,
   5,  9, 14, 20, 5,  9, 14, 20, 5,  9, 14, 20, 5,  9, 14, 20,
   4, 11, 16, 23, 4, 11, 16, 23, 4, 11, 16, 23, 4, 11, 16, 23,
   6, 10, 15, 21, 6, 10, 15, 21, 6, 10, 15, 21, 6, 10, 15, 21]

/-- Little-endian byte list (8 bytes) of a natural number. -/
def le64 (n : Nat) : List Nat := (List.range 8).map (fun i => (n >>> (8 * i)) % 256)

/-- MD5 padding: append `0x80`, zero-pad to 56 mod 64 bytes, then the
original bit length as 8 little-endian bytes. -/
def md5pad (msg : List Nat) : List Nat :=
  let padLen := (119 - (msg.length % 64)) % 64
  msg ++ [0x80] ++ List.replicate padLen 0 ++ le64 (msg.length * 8)

/-- Split a byte list into 64-byte blocks (the padded length is a multiple
of 64, so the fuel `l.length` suffices). -/
def md5blocks : Nat → List Nat → List (List Nat)
  | 0, _ => []
  | _, [] => []
  | fuel + 1, l => l.take 64 :: md5blocks fuel (l.drop 64)

/-- Decode a 64-byte block into 16 little-endian 32-bit words. -/
def md5words (block : List Nat) : List Nat :=
  (List.range 16).map (fun j =>
    block.getD (4 * j) 0 + 256 * block.getD (4 * j + 1) 0 +
    65536 * block.getD (4 * j + 2) 0 + 16777216 * block.getD (4 * j + 3) 0)

/-- One MD5 round: state `(a, b, c, d)`, round index `i`, message words `w`. -/
def md5round (w : List Nat) (st : Nat × Nat × Nat × Nat) (i : Nat) : Nat × Nat × Nat × Nat :=
  let a := st.1
  let b := st.2.1
  let c := st.2.2.1
  let d := st.2.2.2
  let f :=
    if i < 16 then (b &&& c) ||| (not32 b &&& d)
    else if i < 32 then (d &&& b) ||| (not32 d &&& c)
    else if i < 48 then b ^^^ c ^^^ d
    else c ^^^ (b ||| not32 d)
  let g :=
    if i < 16 then i
    else if i < 32 then (5 * i + 1) % 16
    else if i < 48 then (3 * i + 5) % 16
    else (7 * i) % 16
  let tmp := add32 (add32 (add32 f a) (md5K.getD i 0)) (w.getD g 0)
  (d, add32 b (rotl32 tmp (md5S.getD i 0)), b, c)

/-- Process one 64-byte block, updating the running digest state. -/
def md5chunk (st : Nat × Nat × Nat × Nat) (block : List Nat) : Nat × Nat × Nat × Nat :=
  let w := md5words block
  let r := (List.range 64).foldl (md5round w) st
  (add32 st.1 r.1, add32 st.2.1 r.2.1, add32 st.2.2.1 r.2.2.1, add32 st.2.2.2 r.2.2.2)

/-- Lowercase hex digit. -/
def hexDigit (n : Nat) : Char := if n < 10 then Char.ofNat (48 + n) else Char.ofNat (87 + n)

/-- Two lowercase hex characters of a byte. -/
def byteHex (b : Nat) : List Char := [hexDigit (b / 16), hexDigit (b % 16)]

/-- Four little-endian bytes of a 32-bit word. -/
def wordBytes (x : Nat) : List Nat := [x % 256, (x >>> 8) % 256, (x >>> 16) % 256, (x >>> 24) % 256]

/-- MD5 digest of a byte list as a lowercase hex string. -/
def md5hexBytes (msg : List Nat) : String :=
  let padded := md5pad msg
  let st := (md5blocks padded.length padded).foldl md5chunk
    (0x67452301, 0xefcdab89, 0x98badcfe, 0x10325476)
  String.mk (((wordBytes st.1 ++ wordBytes st.2.1 ++ wordBytes st.2.2.1 ++
    wordBytes st.2.2.2).map byteHex).flatten)

/-- `hashlib.md5(s.encode()).hexdigest()`.  The strings hashed by the code
(entity names and type values from the ASCII pattern tables) are ASCII, for
which the UTF-8 encoding is the code-point sequence. -/
def md5hex (s : String) : String := md5hexBytes (s.toList.map Char.toNat)

/-- `hashlib.md5(f"{name}_{tyval}".encode()).hexdigest()[:12]`: the entity id
computed in `EntityExtractor.extract_entities`. -/
def entityId (name : String) (tyval : String) : String :=
  (md5hex (name ++ "_" ++ tyval)).take 12

end LocalRag

namespace LocalRag

/-! ### A matcher for the fixed regular expressions of `ENTITY_PATTERNS`

The patterns use only: the word-boundary anchor, character classes
`[A-Z]`, `[a-z]`, `\s`, single literal characters, the greedy quantifiers
`+` (on a class) and `?` (on a single character), and ordered alternation
of literal strings.  `RE` is a continuation-style pattern syntax covering
exactly these shapes; `mrun` implements Python's backtracking semantics
(alternatives tried left to right, quantifiers greedy, longest attempt
first, the whole continuation retried on failure). -/

/-- Pattern syntax: each constructor carries the rest of the pattern. -/
inductive RE where
  | emp : RE
  | boundThen (k : RE) : RE
  | clsThen (f : Char → Bool) (k : RE) : RE
  | oneThen (c : Char) (k : RE) : RE
  | optThen (c : Char) (k : RE) : RE
  | plusThen (f : Char → Bool) (k : RE) : RE
  | altArm (lits : List (List Char)) (k : RE) : RE

/-- Python `\w` (ASCII range): letters, digits, underscore. -/
def isWordChar (c : Char) : Bool := c.isAlpha || c.isDigit || c == '_'

/-- Python `\b`: true when exactly one side of the position is a word
character (string edges count as non-word). -/
def atBoundary (prev : Option Char) (next : Option Char) : Bool :=
  (match prev with | some c => isWordChar c | none => false) !=
  (match next with | some c => isWordChar c | none => false)

/-- Python `\s` (ASCII range). -/
def isSpaceC (c : Char) : Bool :=
  c == ' ' || c == '\t' || c == '\n' || c == '\x0d' || c == '\x0b' || c == '\x0c'

/-- Consume a literal string from the front of the input. -/
def litTake : List Char → List Char → Option (List Char)
  | [], s => some s
  | _ :: _, [] => none
  | c :: w, c' :: s => if c = c' then litTake w s else none

/-- The shape of a partial-match continuation: remaining input and the
character just before it, to an optional (matched, rest) pair. -/
def Cont : Type := List Char → Option Char → Option (List Char × List Char)

/-- Greedy continuation of `+`: extend the repetition as far as possible,
backtracking to shorter repetitions (down to the one character already
consumed by the caller) when the rest of the pattern fails.  `last` is the
last character consumed so far. -/
def plusGo (f : Char → Bool) (cont : Cont) : List Char → Char → Option (List Char × List Char)
  | s, last =>
      match s with
      | c :: s' =>
        if f c then
          match plusGo f cont s' c with
          | some p => some (c :: p.1, p.2)
          | none => cont s (some last)
        else cont s (some last)
      | [] => cont [] (some last)

/-- Ordered alternation over literal strings: try each literal in turn,
running the continuation after it; on failure fall through to the next
alternative. -/
def altTry (cont : Cont) : List (List Char) → List Char → Option Char → Option (List Char × List Char)
  | [], _, _ => none
  | w :: ws, s, prev =>
      match litTake w s with
      | some s' =>
        match cont s' (match w.getLast? with | some c => some c | none => prev) with
        | some p => some (w ++ p.1, p.2)
        | none => altTry cont ws s prev
      | none => altTry cont ws s prev

/-- Run a pattern at the current position.  `prev` is the character just
before the position (for `\b`).  On success returns the matched characters
and the remaining input. -/
def mrun : RE → List Char → Option Char → Option (List Char × List Char)
  | .emp, s, _ => some ([], s)
  | .boundThen k, s, prev =>
      if atBoundary prev s.head? then mrun k s prev else none
  | .clsThen f k, s, _ =>
      match s with
      | [] => none
      | c :: s' =>
        if f c then
          match mrun k s' (some c) with
          | some p => some (c :: p.1, p.2)
          | none => none
        else none
  | .oneThen c k, s, _ =>
      match s with
      | [] => none
      | c' :: s' =>
        if c' = c then
          match mrun k s' (some c) with
          | some p => some (c :: p.1, p.2)
          | none => none
        else none
  | .optThen c k, s, prev =>
      match s with
      | [] => mrun k [] prev
      | c' :: s' =>
        if c' = c then
          match mrun k s' (some c) with
          | some p => some (c :: p.1, p.2)
          | none => mrun k s prev
        else mrun k s prev
  | .plusThen f k, s, _ =>
      match s with
      | [] => none
      | c :: s' =>
        if f c then
          match plusGo f (fun t pv => mrun k t pv) s' c with
          | some p => some (c :: p.1, p.2)
          | none => none
        else none
  | .altArm lits k, s, prev => altTry (fun t pv => mrun k t pv) lits s prev

/-- One scanning pass of `re.finditer`: at each position try the pattern;
on a match emit it and continue after it (non-overlapping), otherwise
advance one character.  The fuel `text.length + 1` is enough because every
step consumes at least one character of input. -/
def mscan (pat : RE) : Nat → List Char → Option Char → List (List Char)
  | 0, _, _ => []
  | fuel + 1, s, prev =>
      match mrun pat s prev with
      | some p =>
        if p.1.isEmpty then
          match s with
          | [] => []
          | c :: s' => mscan pat fuel s' (some c)
        else p.1 :: mscan pat fuel p.2 p.1.getLast?
      | none =>
        match s with
        | [] => []
        | c :: s' => mscan pat fuel s' (some c)

/-- `re.finditer(pattern, text)`, returning the matched strings in order. -/
def finditer (pat : RE) (text : List Char) : List (List Char) :=
  mscan pat (text.length + 1) text none

end LocalRag

namespace LocalRag

/-! ### The `ENTITY_PATTERNS` table of `EntityExtractor` -/

/-- `\b[A-Z][a-z]+ [A-Z][a-z]+\b` (PERSON: First Last). -/
def personPat1 : RE :=
  .boundThen (.clsThen Char.isUpper (.plusThen Char.isLower (.oneThen ' '
    (.clsThen Char.isUpper (.plusThen Char.isLower (.boundThen .emp))))))

/-- `\b[A-Z]\.?\s+[A-Z][a-z]+\b` (PERSON: Initial Last). -/
def personPat2 : RE :=
  .boundThen (.clsThen Char.isUpper (.optThen '.' (.plusThen isSpaceC
    (.clsThen Char.isUpper (.plusThen Char.isLower (.boundThen .emp))))))

/-- `\b[A-Z][a-z]+(?:\s+(?:Inc|LLC|Ltd|Corp|Co|Corporation|Company|Group))\b`. -/
def orgPat1 : RE :=
  .boundThen (.clsThen Char.isUpper (.plusThen Char.isLower (.plusThen isSpaceC
    (.altArm (["Inc", "LLC", "Ltd", "Corp", "Co", "Corporation", "Company",
               "Group"].map String.toList) (.boundThen .emp)))))

/-- `\b(?:Google|Apple|Microsoft|Meta|Amazon|OpenAI|DeepMind)\b`. -/
def orgPat2 : RE :=
  .boundThen (.altArm (["Google", "Apple", "Microsoft", "Meta", "Amazon",
    "OpenAI", "DeepMind"].map String.toList) (.boundThen .emp))

/-- `\b(?:Python|JavaScript|TypeScript|Go|Rust|C\+\+|Java|C#)\b`. -/
def techPat1 : RE :=
  .boundThen (.altArm (["Python", "JavaScript", "TypeScript", "Go", "Rust",
    "C++", "Java", "C#"].map String.toList) (.boundThen .emp))

/-- `\b(?:TensorFlow|PyTorch|FastAPI|Django|Flask|PostgreSQL|Neo4j)\b`. -/
def techPat2 : RE :=
  .boundThen (.altArm (["TensorFlow", "PyTorch", "FastAPI", "Django", "Flask",
    "PostgreSQL", "Neo4j"].map String.toList) (.boundThen .emp))

/-- `\b(?:AWS|Azure|GCP|Kubernetes|Docker|Kubernetes)\b` (the source repeats
`Kubernetes`). -/
def techPat3 : RE :=
  .boundThen (.altArm (["AWS", "Azure", "GCP", "Kubernetes", "Docker",
    "Kubernetes"].map String.toList) (.boundThen .emp))

/-- `\b(?:New York|San Francisco|London|Tokyo|Berlin|Paris)\b`. -/
def locPat1 : RE :=
  .boundThen (.altArm (["New York", "San Francisco", "London", "Tokyo",
    "Berlin", "Paris"].map String.toList) (.boundThen .emp))

/-- `\b(?:USA|UK|China|Japan|Germany|France|India)\b`. -/
def locPat2 : RE :=
  .boundThen (.altArm (["USA", "UK", "China", "Japan", "Germany", "France",
    "India"].map String.toList) (.boundThen .emp))

/-- `ENTITY_PATTERNS` in its (insertion-ordered) dict iteration order. -/
def ENTITY_PATTERNS : List (EntityType × List RE) :=
  [(.PERSON, [personPat1, personPat2]),
   (.ORGANIZATION, [orgPat1, orgPat2]),
   (.TECHNOLOGY, [techPat1, techPat2, techPat3]),
   (.LOCATION, [locPat1, locPat2])]

/-! ### `EntityExtractor.extract_entities` -/

/-- The `concept_keywords` set literal.  The source writes `'nlp'` twice;
the set collapses it.  Python set iteration order is unspecified; the
embedding fixes it to source order, deduplicated. -/
def conceptKeywords : List String :=
  ["machine learning", "deep learning", "neural network",
   "data science", "artificial intelligence", "nlp",
   "embeddings", "transformers", "llm", "rag", "vector database"]

/-- The `Entity(...)` construction used in the pattern phase and the
keyword phase: id from (name, type value), static confidence, timestamps
from `__post_init__`. -/
def mkEntity (now : String) (name : String) (ty : EntityType) (conf : ℚ) : Entity :=
  { id := entityId name ty.value, name := name, entity_type := ty,
    description := none, confidence := conf,
    first_seen := now, last_seen := now, mention_count := 1, properties := [] }

/-- The inner loop of the pattern phase: for each regex match `name`, if
`name not in seen_names` then append the entity and record the name. -/
def emitNames (now : String) (ty : EntityType) :
    List (List Char) → List Entity × List String → List Entity × List String
  | [], acc => acc
  | nm :: rest, acc =>
      let name := String.mk nm
      if name ∈ acc.2 then emitNames now ty rest acc
      else emitNames now ty rest
        (acc.1 ++ [mkEntity now name ty (4 / 5)], acc.2 ++ [name])

/-- Loop over the patterns of one entity type. -/
def emitPats (now : String) (ty : EntityType) (s : List Char) :
    List RE → List Entity × List String → List Entity × List String
  | [], acc => acc
  | pat :: pats, acc => emitPats now ty s pats (emitNames now ty (finditer pat s) acc)

/-- Loop over `ENTITY_PATTERNS.items()`. -/
def emitTypes (now : String) (s : List Char) :
    List (EntityType × List RE) → List Entity × List String → List Entity × List String
  | [], acc => acc
  | (ty, pats) :: rest, acc => emitTypes now s rest (emitPats now ty s pats acc)

/-- Python `str.find` on character lists: index of the first occurrence of
`needle` in `hay`, `none` for `-1`.  An empty needle is found at 0. -/
def pyFind : List Char → List Char → Option Nat
  | hay, needle =>
    match litTake needle hay with
    | some _ => some 0
    | none =>
      match hay with
      | [] => none
      | _ :: h =>
        match pyFind h needle with
        | some i => some (i + 1)
        | none => none

/-- Python `needle in hay` substring test. -/
def pyContains (hay needle : List Char) : Bool := (pyFind hay needle).isSome

/-- The `Entity(...)` construction of the keyword phase: CONCEPT type,
confidence 0.7, id from (keyword, "CONCEPT"). -/
def conceptEntity (now : String) (kw : String) : Entity :=
  { id := entityId kw EntityType.CONCEPT.value, name := kw, entity_type := .CONCEPT,
    description := none, confidence := 7 / 10, first_seen := now, last_seen := now,
    mention_count := 1, properties := [] }

/-- The keyword phase: for each concept keyword contained in the lowered
text, compute the id and append the entity if the id is not in
`seen_names` (the code adds ids, not names, to the seen set here). -/
def emitKeywords (now : String) (tl : List Char) :
    List String → List Entity × List String → List Entity × List String
  | [], acc => acc
  | kw :: kws, acc =>
      if pyContains tl kw.toList then
        let eid := entityId kw EntityType.CONCEPT.value
        if eid ∈ acc.2 then emitKeywords now tl kws acc
        else emitKeywords now tl kws (acc.1 ++ [conceptEntity now kw], acc.2 ++ [eid])
      else emitKeywords now tl kws acc

/-- Python `str.lower` (ASCII behaviour, sufficient for the pattern set). -/
def strLower (s : List Char) : List Char := s.map Char.toLower

/-- `EntityExtractor.extract_entities(text)`.  `now` stands for
`datetime.utcnow().isoformat()` at call time. -/
def extract_entities (now : String) (text : String) : List Entity :=
  let s := text.toList
  let afterPatterns := emitTypes now s ENTITY_PATTERNS ([], [])
  (emitKeywords now (strLower s) conceptKeywords afterPatterns).1

/-! ### `EntityExtractor.extract_relationships` -/

/-- The body of the co-occurrence pair loop: first occurrences of both
lowered names in the lowered text; a CO_OCCURS relationship when both are
found within 500 characters, with `weight = max(0.3, 1 - distance/500)`. -/
def coOccur (now : String) (tl : List Char) (e1 e2 : Entity) : Option Relationship :=
  match pyFind tl (strLower e1.name.toList), pyFind tl (strLower e2.name.toList) with
  | some idx1, some idx2 =>
      let distance := max idx1 idx2 - min idx1 idx2
      if distance < 500 then
        let weight : ℚ := max (3 / 10) (1 - (distance : ℚ) / 500)
        some { source_id := e1.id, target_id := e2.id,
               relation_type := .CO_OCCURS, confidence := weight,
               weight := weight, properties := [], timestamp := now }
      else none
  | _, _ => none

/-- The nested pair loop (`for i, e1 in enumerate(entities): for e2 in
entities[i+1:]`). -/
def pairLoop (now : String) (tl : List Char) : List Entity → List Relationship
  | [] => []
  | e1 :: rest => rest.filterMap (coOccur now tl e1) ++ pairLoop now tl rest

/-- `EntityExtractor.extract_relationships(text, entities)`. -/
def extract_relationships (now : String) (text : String) (entities : List Entity) :
    List Relationship :=
  pairLoop now (strLower text.toList) entities

end LocalRag

namespace LocalRag

/-! ### `ConceptClusterer` -/

/-- `np.dot` on equal-length rational vectors. -/
def dotQ (a b : List ℚ) : ℚ := ((a.zip b).map (fun p => p.1 * p.2)).sum

/-- `np.dot(a, b) / (np.linalg.norm(a) * np.linalg.norm(b) + 1e-10)`,
with `np.linalg.norm v = Real.sqrt (dotQ v v)` and `1e-10 = 1/10^10`
(floating-point rounding idealised away). -/
noncomputable def cosineSim (a b : List ℚ) : ℝ :=
  ((dotQ a b : ℚ) : ℝ) /
    (Real.sqrt ((dotQ a a : ℚ) : ℝ) * Real.sqrt ((dotQ b b : ℚ) : ℝ) + 1 / 10 ^ 10)

/-- The embedding loop with its `embeddings_cache` keyed by entity id.
`embed name = none` models `embed_query` raising, for which the code falls
back to `np.zeros(384)`. -/
def computeEmbeddings (embed : String → Option (List ℚ)) :
    List Entity → List (String × List ℚ) → List (List ℚ)
  | [], _ => []
  | e :: es, cache =>
      match cache.lookup e.id with
      | some v => v :: computeEmbeddings embed es cache
      | none =>
          let v := (embed e.name).getD (List.replicate 384 0)
          v :: computeEmbeddings embed es ((e.id, v) :: cache)

/-- The inner scan of the greedy clustering loop over later indices `j`,
skipping used ones and adding `j` to the cluster and the used set when
`accept i j` (that is, `similarity >= threshold`) holds. -/
def innerGo (accept : Nat → Nat → Bool) (i : Nat) :
    List Nat → List Nat → List Nat × List Nat
  | [], used => ([], used)
  | j :: js, used =>
      if j ∈ used then innerGo accept i js used
      else if accept i j then
        let p := innerGo accept i js (j :: used)
        (j :: p.1, p.2)
      else innerGo accept i js used

/-- The outer greedy clustering loop over seed indices. -/
def outerGo (accept : Nat → Nat → Bool) : List Nat → List Nat → List (List Nat)
  | [], _ => []
  | i :: rest, used =>
      if i ∈ used then outerGo accept rest used
      else
        let p := innerGo accept i rest (i :: used)
        (i :: p.1) :: outerGo accept rest p.2

/-- A default entity for positional lookups (never reached: the greedy
loops only produce indices below the input length). -/
def dfltEntity : Entity :=
  { id := "", name := "", entity_type := .CONCEPT, first_seen := "", last_seen := "" }

/-- `ConceptClusterer.cluster_entities(entities, similarity_threshold)`.
`embedM = none` models `self.embedding_model is None`.  The greedy loops
run over entity indices; index `i` stands for `entities[i]`. -/
noncomputable def cluster_entities (embedM : Option (String → Option (List ℚ)))
    (entities : List Entity) (similarity_threshold : ℚ := 7 / 10) : List (List Entity) :=
  if entities.isEmpty || embedM.isNone then entities.map (fun e => [e])
  else
    let embed := embedM.getD (fun _ => none)
    let embs := computeEmbeddings embed entities []
    let accept : Nat → Nat → Bool := fun i j =>
      @decide ((similarity_threshold : ℝ) ≤ cosineSim (embs.getD i []) (embs.getD j []))
        (Classical.propDecidable _)
    (outerGo accept (List.range entities.length) []).map
      (fun c => c.map (fun i => entities.getD i dfltEntity))

/-! ### `TemporalGraphBuilder` -/

/-- The `temporal_index` defaultdict: association list from entity id to
its list of (entity snapshot, timestamp) records, keys in first-insertion
order, records in append order. -/
abbrev TemporalIndex : Type := List (String × List (Entity × String))

/-- `add_temporal_entity(entity, timestamp)`; the `timestamp = None`
default (`utcnow`) is resolved by the caller. -/
def add_temporal_entity (st : TemporalIndex) (e : Entity) (timestamp : String) :
    TemporalIndex :=
  if st.any (fun p => p.1 == e.id) then
    st.map (fun p => if p.1 == e.id then (p.1, p.2 ++ [(e, timestamp)]) else p)
  else st ++ [(e.id, [(e, timestamp)])]

/-- `query_temporal_entities(entity_type, start_time, end_time)` with both
bounds supplied (the `None` defaults resolve to a now-relative window
before this loop runs).  Timestamps compare as strings. -/
def query_temporal_entities (st : TemporalIndex) (ty : EntityType)
    (start_time end_time : String) : List Entity :=
  st.foldl (fun results p =>
    p.2.foldl (fun results r =>
      if r.1.entity_type = ty ∧ start_time ≤ r.2 ∧ r.2 ≤ end_time then
        results ++ [r.1]
      else results) results) []

/-- `get_entity_timeline(entity_id)`: `[]` for unknown ids, otherwise the
(timestamp, "Mentioned in <name>") pairs sorted ascending by timestamp
(Python's stable `sorted` with key `x[0]`). -/
def get_entity_timeline (st : TemporalIndex) (entity_id : String) :
    List (String × String) :=
  match st.lookup entity_id with
  | none => []
  | some records =>
      (records.map (fun r => (r.2, "Mentioned in " ++ r.1.name))).mergeSort
        (fun a b => a.1 ≤ b.1)

end LocalRag

namespace LocalRag

/-! ### The Neo4j store model

Nodes carry labels and a property map (a function, so `SET` is plain
override).  `MERGE (n:L {id: $id})` matches on label plus the `id`
property; `CREATE` always appends.  Relationships are records keyed, for
`MERGE`, by (source id, target id, type, the properties in the merge
pattern).  `datetime()` values are supplied as the `now` parameter. -/

/-- A node of the property graph. -/
structure GNode where
  labels : List String
  props : String → Option Val

/-- A relationship record of the property graph. -/
structure GRel where
  src : String
  tgt : String
  rtype : String
  timestamp : Option String
  confidence : Option ℚ
  weight : Option ℚ
deriving DecidableEq, Repr

/-- The graph database state. -/
structure Graph where
  nodes : List GNode
  rels : List GRel

/-- The empty database. -/
def Graph.empty : Graph := { nodes := [], rels := [] }

/-- `SET n.k = v` on a property map. -/
def setProp (p : String → Option Val) (k : String) (v : Val) : String → Option Val :=
  fun k' => if k' = k then some v else p k'

/-- A sequence of `SET` clauses. -/
def setProps (p : String → Option Val) : List (String × Val) → (String → Option Val)
  | [] => p
  | kv :: rest => setProps (setProp p kv.1 kv.2) rest

/-- Does a node match `(n:lab {id: idv})`? -/
def nodeMatch (lab : String) (idv : String) (n : GNode) : Bool :=
  lab ∈ n.labels && n.props "id" == some (.str idv)

/-- `MATCH (n:lab {id: idv})` existence test. -/
def hasNode (g : Graph) (lab : String) (idv : String) : Bool :=
  g.nodes.any (nodeMatch lab idv)

/-- `MERGE (n:lab {id: idv}) SET ...`: update every matching node, or
create the node (with its merge-pattern `id`) when none matches. -/
def mergeNode (g : Graph) (lab : String) (idv : String) (sets : List (String × Val)) :
    Graph :=
  if g.nodes.any (nodeMatch lab idv) then
    { g with nodes := g.nodes.map (fun n =>
        if nodeMatch lab idv n then { n with props := setProps n.props sets } else n) }
  else
    { g with nodes := g.nodes ++
        [{ labels := [lab], props := setProps (fun _ => none) (("id", .str idv) :: sets) }] }

/-- `CREATE (n:lab {...})`: always appends a fresh node. -/
def createNode (g : Graph) (lab : String) (props : List (String × Val)) : Graph :=
  { g with nodes := g.nodes ++ [{ labels := [lab], props := setProps (fun _ => none) props }] }

/-- `MERGE (a)-[r:rtype {pattern}]->(b) SET r.confidence, r.weight`, with
both endpoints already matched: update the matching relationship or create
it. -/
def mergeRel (g : Graph) (src tgt rtype : String) (timestamp : Option String)
    (conf wt : Option ℚ) : Graph :=
  if g.rels.any (fun r => r.src == src && r.tgt == tgt && r.rtype == rtype &&
      r.timestamp == timestamp) then
    { g with rels := g.rels.map (fun r =>
        if r.src == src && r.tgt == tgt && r.rtype == rtype && r.timestamp == timestamp
        then { r with confidence := conf.orElse (fun _ => r.confidence),
                      weight := wt.orElse (fun _ => r.weight) }
        else r) }
  else
    { g with rels := g.rels ++
        [{ src := src, tgt := tgt, rtype := rtype, timestamp := timestamp,
           confidence := conf, weight := wt }] }

namespace Neo4jGraphStore

/-- `Neo4jGraphStore.create_document_node(doc_id, file_path, doc_type,
metadata)`: a plain Cypher `CREATE` of a `Document` node (`metadata` is
already serialised by `json.dumps`). -/
def create_document_node (now : String) (g : Graph)
    (doc_id file_path doc_type metadata : String) : Graph :=
  createNode g "Document"
    [("id", .str doc_id), ("path", .str file_path), ("type", .str doc_type),
     ("created_at", .str now), ("metadata", .str metadata)]

/-- `Neo4jGraphStore.create_entity_node(entity_id, name, entity_type,
properties)`: a plain Cypher `CREATE` of a node labelled by the entity
type. -/
def create_entity_node (now : String) (g : Graph)
    (entity_id name entity_type properties : String) : Graph :=
  createNode g entity_type
    [("id", .str entity_id), ("name", .str name), ("created_at", .str now),
     ("properties", .str properties)]

end Neo4jGraphStore

namespace KnowledgeGraphBuilder

/-- `KnowledgeGraphBuilder._create_document_node`: `MERGE` on
`(doc:Document {id})` then `SET` name and timestamps. -/
def _create_document_node (now : String) (g : Graph) (doc_id doc_name : String) : Graph :=
  mergeNode g "Document" doc_id
    [("name", .str doc_name), ("created_at", .str now), ("updated_at", .str now)]

/-- `KnowledgeGraphBuilder._create_chunk_node`: `MERGE` the chunk (text
truncated to 1000 characters), then `MATCH` the document and `MERGE` the
`FROM_DOCUMENT` edge (no edge if the document node is absent). -/
def _create_chunk_node (now : String) (g : Graph) (chunk_id text document_id : String) :
    Graph :=
  let g := mergeNode g "Chunk" chunk_id
    [("text", .str (text.take 1000)), ("created_at", .str now)]
  if hasNode g "Chunk" chunk_id && hasNode g "Document" document_id then
    mergeRel g chunk_id document_id "FROM_DOCUMENT" none none none
  else g

/-- The seven `SET` clauses of `_create_entity_node`. -/
def entitySets (e : Entity) : List (String × Val) :=
  [("name", .str e.name), ("type", .str e.entity_type.value),
   ("description", match e.description with | some d => .str d | none => .null),
   ("confidence", .num e.confidence), ("first_seen", .str e.first_seen),
   ("last_seen", .str e.last_seen), ("mention_count", .natv e.mention_count)]

/-- `KnowledgeGraphBuilder._create_entity_node`: `MERGE` on
`(e:Entity {id})` then `SET` all seven entity properties (overwrite). -/
def _create_entity_node (g : Graph) (e : Entity) : Graph :=
  mergeNode g "Entity" e.id (entitySets e)

/-- `KnowledgeGraphBuilder._create_relationship`: `MATCH` both `Entity`
endpoints, `MERGE` the typed edge keyed also by its `timestamp` property,
`SET` confidence and weight.  The whole statement runs under
`try/except Neo4jError`: `err = true` models the driver raising, which the
handler swallows, leaving the store unchanged.  When an endpoint id does
not exist the `MATCH` yields no rows and the statement succeeds without
writing. -/
def _create_relationship (err : Bool) (g : Graph) (rel : Relationship) : Graph :=
  if err then g
  else if hasNode g "Entity" rel.source_id && hasNode g "Entity" rel.target_id then
    mergeRel g rel.source_id rel.target_id rel.relation_type.value
      (some rel.timestamp) (some rel.confidence) (some rel.weight)
  else g

/-- `KnowledgeGraphBuilder._create_chunk_entity_relationship`: `MATCH`
chunk and entity, `MERGE` a `MENTIONS` edge (also wrapped in
`try/except Neo4jError`; driver errors are not modelled here since the
claims concern `_create_relationship` failures). -/
def _create_chunk_entity_relationship (g : Graph) (chunk_id entity_id : String) : Graph :=
  if hasNode g "Chunk" chunk_id && hasNode g "Entity" entity_id then
    mergeRel g chunk_id entity_id "MENTIONS" none none none
  else g

/-- `KnowledgeGraphBuilder._create_concept_from_cluster`: `MERGE` the
concept node, then for each clustered entity id `MATCH` it and `MERGE` a
`CLUSTERS` edge. -/
def _create_concept_from_cluster (now : String) (g : Graph) (cluster : List Entity)
    (document_id : String) (cluster_idx : Nat) : Graph :=
  let concept_id := "concept_" ++ document_id ++ "_" ++ toString cluster_idx
  let concept_name := String.intercalate " / " ((cluster.take 3).map (·.name))
  let g := mergeNode g "Concept" concept_id
    [("name", .str concept_name), ("entity_count", .natv cluster.length),
     ("created_at", .str now)]
  (cluster.map (·.id)).foldl (fun g eid =>
    if hasNode g "Concept" concept_id && hasNode g "Entity" eid then
      mergeRel g concept_id eid "CLUSTERS" none none none
    else g) g

end KnowledgeGraphBuilder

end LocalRag

namespace LocalRag

/-- The `stats` dictionary returned by `build_graph_from_chunks`. -/
structure Stats where
  entities_extracted : Nat := 0
  relationships_extracted : Nat := 0
  clusters_created : Nat := 0
  nodes_created : Nat := 0
  relationships_created : Nat := 0
deriving DecidableEq, Repr

/-- A chunk record: a dict read with `chunk.get('text', '')`. -/
structure ChunkD where
  text : Option String
deriving DecidableEq, Repr

namespace KnowledgeGraphBuilder

/-- The relationship-persisting inner loop of the pipeline:
`for relationship in relationships: self._create_relationship(relationship);
stats['relationships_created'] += 1`.  `fail k` tells whether the driver
raises `Neo4jError` on the `k`-th relationship statement of this pipeline
run (the `except` clause swallows it); `k` counts attempts so far. -/
def relLoop (fail : Nat → Bool) : List Relationship → Graph × Stats × Nat →
    Graph × Stats × Nat
  | [], acc => acc
  | rel :: rest, (g, stats, k) =>
      relLoop fail rest
        (_create_relationship (fail k) g rel,
         { stats with relationships_created := stats.relationships_created + 1 },
         k + 1)

/-- The entity-persisting inner loop: create each entity node and its
chunk→entity `MENTIONS` edge. -/
def entLoop (chunk_id : String) : List Entity → Graph → Graph
  | [], g => g
  | e :: rest, g =>
      entLoop chunk_id rest
        (_create_chunk_entity_relationship (_create_entity_node g e) chunk_id e.id)

/-- The per-chunk body of `build_graph_from_chunks` (chunk index `i`). -/
def chunkStep (fail : Nat → Bool) (now document_id : String)
    (st : Graph × Stats × Nat × List Entity) (i : Nat) (chunk : ChunkD) :
    Graph × Stats × Nat × List Entity :=
  let chunk_id := document_id ++ "_chunk_" ++ toString i
  let text := chunk.text.getD ""
  let g := _create_chunk_node now st.1 chunk_id text document_id
  let stats := { st.2.1 with nodes_created := st.2.1.nodes_created + 1 }
  let entities := extract_entities now text
  let all_entities := st.2.2.2 ++ entities
  let stats := { stats with entities_extracted := stats.entities_extracted + entities.length }
  let relationships := extract_relationships now text entities
  let stats := { stats with
    relationships_extracted := stats.relationships_extracted + relationships.length }
  let g := entLoop chunk_id entities g
  let r := relLoop fail relationships (g, stats, st.2.2.1)
  (r.1, r.2.1, r.2.2, all_entities)

/-- Loop over the chunks with their indices. -/
def chunkLoop (fail : Nat → Bool) (now document_id : String) :
    List (Nat × ChunkD) → Graph × Stats × Nat × List Entity →
    Graph × Stats × Nat × List Entity
  | [], st => st
  | (i, c) :: rest, st =>
      chunkLoop fail now document_id rest (chunkStep fail now document_id st i c)

/-- The concept-materialisation loop: for each cluster with more than one
member, create a concept node linked to its entities. -/
def conceptLoop (now document_id : String) :
    List (Nat × List Entity) → Graph → Graph
  | [], g => g
  | (idx, cluster) :: rest, g =>
      conceptLoop now document_id rest
        (if cluster.length > 1 then
          _create_concept_from_cluster now g cluster document_id idx
        else g)

/-- `KnowledgeGraphBuilder.build_graph_from_chunks(chunks, document_id,
document_name)`.  `embedM` is the builder's `embedding_model`,
`enable_clustering` its flag, `fail` the per-statement `Neo4jError`
oracle for relationship creation, `now` the wall clock, and `g0` the
initial database state. -/
noncomputable def build_graph_from_chunks
    (embedM : Option (String → Option (List ℚ))) (enable_clustering : Bool)
    (fail : Nat → Bool) (now : String) (g0 : Graph)
    (chunks : List ChunkD) (document_id document_name : String) : Graph × Stats :=
  let stats : Stats := {}
  let g := _create_document_node now g0 document_id document_name
  let stats := { stats with nodes_created := stats.nodes_created + 1 }
  let r := chunkLoop fail now document_id chunks.enum (g, stats, 0, [])
  let g := r.1
  let stats := r.2.1
  let all_entities := r.2.2.2
  if enable_clustering && !all_entities.isEmpty then
    let clusters := cluster_entities embedM all_entities
    let stats := { stats with clusters_created := clusters.length }
    let g := conceptLoop now document_id clusters.enum g
    (g, stats)
  else (g, stats)

end KnowledgeGraphBuilder

end LocalRag

namespace LocalRag

/-! ### Property-map and `MERGE` lemmas -/

theorem setProps_apply_not_mem (l : List (String × Val)) :
    ∀ (p : String → Option Val) (k : String), k ∉ l.map Prod.fst → setProps p l k = p k := by
  induction l with
  | nil => intro p k _; rfl
  | cons a l ih =>
    intro p k h
    simp only [List.map_cons, List.mem_cons] at h
    push_neg at h
    simp only [setProps]
    rw [ih (setProp p a.1 a.2) k h.2]
    simp only [setProp, if_neg h.1]

theorem setProps_eq_of_agree (l : List (String × Val)) :
    ∀ (p q : String → Option Val),
      (∀ k, k ∉ l.map Prod.fst → p k = q k) → setProps p l = setProps q l := by
  induction l with
  | nil =>
    intro p q h
    funext k
    exact h k (by simp)
  | cons a l ih =>
    intro p q h
    simp only [setProps]
    apply ih
    intro k hk
    simp only [setProp]
    by_cases hka : k = a.1
    · simp [hka]
    · simp only [if_neg hka]
      apply h
      simp only [List.map_cons, List.mem_cons]
      push_neg
      exact ⟨hka, hk⟩

theorem setProps_setProps (p : String → Option Val) (l : List (String × Val)) :
    setProps (setProps p l) l = setProps p l :=
  setProps_eq_of_agree l _ _ (fun k hk => setProps_apply_not_mem l p k hk)

theorem nodeMatch_after_set (lab idv : String) (n : GNode) (sets : List (String × Val))
    (hid : "id" ∉ sets.map Prod.fst) :
    nodeMatch lab idv { n with props := setProps n.props sets } = nodeMatch lab idv n := by
  simp only [nodeMatch, setProps_apply_not_mem sets n.props "id" hid]

/-- Updating the matching nodes of a `MERGE` twice equals updating once. -/
theorem mergeNode_idem (g : Graph) (lab idv : String) (sets : List (String × Val))
    (hid : "id" ∉ sets.map Prod.fst) :
    mergeNode (mergeNode g lab idv sets) lab idv sets = mergeNode g lab idv sets := by
  by_cases hany : g.nodes.any (nodeMatch lab idv)
  · simp only [mergeNode, if_pos hany]
    rcases List.any_eq_true.mp hany with ⟨n0, hn0, hm0⟩
    have hany2 : (g.nodes.map (fun n =>
        if nodeMatch lab idv n then { n with props := setProps n.props sets } else n)).any
        (nodeMatch lab idv) = true := by
      apply List.any_eq_true.mpr
      refine ⟨{ n0 with props := setProps n0.props sets }, ?_, ?_⟩
      · exact List.mem_map.mpr ⟨n0, hn0, by simp [hm0]⟩
      · rw [nodeMatch_after_set lab idv n0 sets hid]
        exact hm0
    simp only [hany2, if_pos, List.map_map]
    congr 1
    apply List.map_congr_left
    intro n _
    by_cases hm : nodeMatch lab idv n
    · simp only [Function.comp_apply, if_pos hm]
      rw [nodeMatch_after_set lab idv n sets hid]
      simp [hm, setProps_setProps]
    · simp only [Function.comp_apply]
      rw [if_neg hm, if_neg hm]
  · have hnotall : ∀ n ∈ g.nodes, ¬ nodeMatch lab idv n := by
      intro n hn hcon
      exact hany (List.any_eq_true.mpr ⟨n, hn, hcon⟩)
    simp only [mergeNode, if_neg hany]
    set newNode : GNode :=
      { labels := [lab], props := setProps (fun _ => none) (("id", Val.str idv) :: sets) }
      with hdefn
    have hnew : nodeMatch lab idv newNode = true := by
      simp only [hdefn, nodeMatch]
      rw [Bool.and_eq_true]
      constructor
      · simp
      · simp only [setProps]
        rw [setProps_apply_not_mem sets _ "id" hid]
        simp [setProp]
    have hany2 : ((g.nodes ++ [newNode]).any (nodeMatch lab idv)) = true :=
      List.any_eq_true.mpr ⟨newNode, by simp, hnew⟩
    simp only [hany2, if_pos]
    congr 1
    rw [List.map_append]
    have h1 : g.nodes.map (fun n =>
        if nodeMatch lab idv n then { n with props := setProps n.props sets } else n)
        = g.nodes := by
      conv_rhs => rw [← List.map_id g.nodes]
      apply List.map_congr_left
      intro n hn
      simp [hnotall n hn]
    have h2 : [newNode].map (fun n =>
        if nodeMatch lab idv n then { n with props := setProps n.props sets } else n)
        = [newNode] := by
      simp only [List.map_cons, List.map_nil, hnew, if_pos]
      have : { labels := newNode.labels, props := setProps newNode.props sets } = newNode := by
        simp only [hdefn]
        congr 1
        simp only [setProps]
        exact setProps_setProps _ sets
      rw [this]
    rw [h1, h2]

end LocalRag

namespace LocalRag

/-! ### Claim C2 -/

/-- C2 (counterexample): `Neo4jGraphStore.create_entity_node` — one of the
two functions the claim cites — issues a Cypher `CREATE`, not a `MERGE`:
invoking it twice with the same entity id appends two nodes, so the store
is not in the same state as after invoking it once. -/
theorem c2_counterexample :
    ¬ (Neo4jGraphStore.create_entity_node "T"
        (Neo4jGraphStore.create_entity_node "T" Graph.empty "e1" "Acme" "ORGANIZATION" "null")
        "e1" "Acme" "ORGANIZATION" "null" =
      Neo4jGraphStore.create_entity_node "T" Graph.empty "e1" "Acme" "ORGANIZATION" "null") := by
  intro h
  have hlen := congrArg (fun g => g.nodes.length) h
  simp only [Neo4jGraphStore.create_entity_node, createNode, Graph.empty,
    List.length_append, List.length_cons, List.length_nil, List.nil_append] at hlen
  omega

/-- C2 (amended): the `MERGE`-based creators of `KnowledgeGraphBuilder`
(`_create_entity_node`, `_create_document_node`) are idempotent upserts
keyed by id, and the `SET` clause overwrites (does not merge) the stored
properties — witnessed here for `name` and `mention_count`, whose stored
values after the upsert are those of the incoming entity regardless of the
previous property map.  (The `CREATE`-based `Neo4jGraphStore` creators are
not idempotent; see the counterexample.) -/
theorem c2_theorem :
    (∀ (g : Graph) (e : Entity),
      KnowledgeGraphBuilder._create_entity_node
          (KnowledgeGraphBuilder._create_entity_node g e) e =
        KnowledgeGraphBuilder._create_entity_node g e) ∧
    (∀ (now : String) (g : Graph) (doc_id doc_name : String),
      KnowledgeGraphBuilder._create_document_node now
          (KnowledgeGraphBuilder._create_document_node now g doc_id doc_name) doc_id doc_name =
        KnowledgeGraphBuilder._create_document_node now g doc_id doc_name) ∧
    (∀ (p : String → Option Val) (e : Entity),
      setProps p (KnowledgeGraphBuilder.entitySets e) "name" = some (.str e.name) ∧
      setProps p (KnowledgeGraphBuilder.entitySets e) "mention_count" =
        some (.natv e.mention_count)) := by
  refine ⟨?_, ?_, ?_⟩
  · intro g e
    apply mergeNode_idem
    simp [KnowledgeGraphBuilder.entitySets]
  · intro now g doc_id doc_name
    apply mergeNode_idem
    simp [KnowledgeGraphBuilder._create_document_node]
  · intro p e
    constructor <;> simp [KnowledgeGraphBuilder.entitySets, setProps, setProp]

end LocalRag

namespace LocalRag

/-! ### Greedy clustering lemmas -/

theorem innerGo_fst_sublist (acc : Nat → Nat → Bool) (i : Nat) :
    ∀ (js used : List Nat), List.Sublist (innerGo acc i js used).1 js := by
  intro js
  induction js with
  | nil => intro used; exact List.Sublist.refl _
  | cons j js ih =>
    intro used
    simp only [innerGo]
    by_cases hu : j ∈ used
    · simp only [if_pos hu]
      exact (ih used).trans (List.sublist_cons_self j js)
    · simp only [if_neg hu]
      by_cases ha : acc i j
      · simp only [if_pos ha]
        exact (ih (j :: used)).cons₂ j
      · simp only [if_neg ha]
        exact (ih used).trans (List.sublist_cons_self j js)

theorem innerGo_snd_mem (acc : Nat → Nat → Bool) (i : Nat) :
    ∀ (js used : List Nat) (x : Nat),
      x ∈ (innerGo acc i js used).2 ↔ x ∈ (innerGo acc i js used).1 ∨ x ∈ used := by
  intro js
  induction js with
  | nil => intro used x; simp [innerGo]
  | cons j js ih =>
    intro used x
    simp only [innerGo]
    by_cases hu : j ∈ used
    · simp only [if_pos hu]; exact ih used x
    · simp only [if_neg hu]
      by_cases ha : acc i j
      · simp only [if_pos ha]
        rw [ih (j :: used) x]
        simp only [List.mem_cons]
        tauto
      · simp only [if_neg ha]; exact ih used x

theorem innerGo_fst_not_used (acc : Nat → Nat → Bool) (i : Nat) :
    ∀ (js used : List Nat) (x : Nat), x ∈ (innerGo acc i js used).1 → x ∉ used := by
  intro js
  induction js with
  | nil => intro used x h; simp [innerGo] at h
  | cons j js ih =>
    intro used x h
    simp only [innerGo] at h
    by_cases hu : j ∈ used
    · rw [if_pos hu] at h; exact ih used x h
    · rw [if_neg hu] at h
      by_cases ha : acc i j
      · rw [if_pos ha] at h
        rcases List.mem_cons.mp h with rfl | hx
        · exact hu
        · intro hxu
          exact ih (j :: used) x hx (List.mem_cons_of_mem j hxu)
      · rw [if_neg ha] at h; exact ih used x h

theorem outerGo_count (acc : Nat → Nat → Bool) :
    ∀ (js used : List Nat) (x : Nat), js.Nodup →
      ((outerGo acc js used).flatten.count x = if x ∈ used then 0 else js.count x) := by
  intro js
  induction js with
  | nil => intro used x _; simp [outerGo]
  | cons i js ih =>
    intro used x hnd
    have hndtail : js.Nodup := hnd.of_cons
    have hinotjs : i ∉ js := (List.nodup_cons.mp hnd).1
    simp only [outerGo]
    by_cases hu : i ∈ used
    · rw [if_pos hu, ih used x hndtail]
      by_cases hxu : x ∈ used
      · rw [if_pos hxu, if_pos hxu]
      · have hxi : x ≠ i := fun h => hxu (h ▸ hu)
        rw [if_neg hxu, if_neg hxu]
        simp [List.count_cons, hxi]
    · rw [if_neg hu]
      set p := innerGo acc i js (i :: used) with hp
      have hmem_sub : List.Sublist p.1 js := innerGo_fst_sublist acc i js (i :: used)
      have hmem_nd : p.1.Nodup := hndtail.sublist hmem_sub
      have hx2 : ∀ y, y ∈ p.2 ↔ y ∈ p.1 ∨ y = i ∨ y ∈ used := by
        intro y
        rw [hp, innerGo_snd_mem acc i js (i :: used) y]
        simp [List.mem_cons]
      simp only [List.flatten_cons, List.count_append, List.count_cons]
      rw [ih p.2 x hndtail]
      by_cases hxu : x ∈ used
      · have hxi : x ≠ i := fun h => hu (h ▸ hxu)
        have hxm : x ∉ p.1 := fun h =>
          innerGo_fst_not_used acc i js (i :: used) x h (List.mem_cons_of_mem i hxu)
        have hxp2 : x ∈ p.2 := (hx2 x).mpr (Or.inr (Or.inr hxu))
        rw [if_pos hxp2, if_pos hxu, List.count_eq_zero_of_not_mem hxm]
        simp [hxi, Ne.symm hxi]
      · rw [if_neg hxu]
        by_cases hxi : x = i
        · have hxm : x ∉ p.1 := fun h =>
            innerGo_fst_not_used acc i js (i :: used) x h
              (by rw [hxi]; exact List.mem_cons_self i used)
          have hxp2 : x ∈ p.2 := (hx2 x).mpr (Or.inr (Or.inl hxi))
          have hxnotjs : x ∉ js := by rw [hxi]; exact hinotjs
          rw [if_pos hxp2, List.count_eq_zero_of_not_mem hxm,
            List.count_eq_zero_of_not_mem hxnotjs]
          simp [hxi]
        · by_cases hxm : x ∈ p.1
          · have hxp2 : x ∈ p.2 := (hx2 x).mpr (Or.inl hxm)
            rw [if_pos hxp2, List.count_eq_one_of_mem hmem_nd hxm,
              List.count_eq_one_of_mem hndtail (hmem_sub.subset hxm)]
            simp [hxi, Ne.symm hxi]
          · have hxp2 : x ∉ p.2 := by
              rw [hx2 x]
              push_neg
              exact ⟨hxm, hxi, hxu⟩
            rw [if_neg hxp2, List.count_eq_zero_of_not_mem hxm]
            simp [hxi, Ne.symm hxi]

theorem outerGo_perm (acc : Nat → Nat → Bool) (js : List Nat) (hnd : js.Nodup) :
    (outerGo acc js []).flatten.Perm js := by
  rw [List.perm_iff_count]
  intro x
  rw [outerGo_count acc js [] x hnd]
  simp

theorem outerGo_shape (acc : Nat → Nat → Bool) :
    ∀ (js used : List Nat), js.Pairwise (· < ·) →
      ∀ c ∈ outerGo acc js used, ∃ i mem, c = i :: mem ∧ ∀ j ∈ mem, i < j := by
  intro js
  induction js with
  | nil => intro used _ c hc; simp [outerGo] at hc
  | cons i js ih =>
    intro used hpw c hc
    simp only [outerGo] at hc
    by_cases hu : i ∈ used
    · rw [if_pos hu] at hc
      exact ih used hpw.of_cons c hc
    · rw [if_neg hu] at hc
      rcases List.mem_cons.mp hc with rfl | hc'
      · refine ⟨i, _, rfl, ?_⟩
        intro j hj
        have hjs : j ∈ js :=
          (innerGo_fst_sublist acc i js (i :: used)).subset hj
        exact List.rel_of_pairwise_cons hpw hjs
      · exact ih _ hpw.of_cons c hc'

theorem getD_range_map {α : Type} (d : α) :
    ∀ (es : List α), (List.range es.length).map (fun i => es.getD i d) = es := by
  intro es
  induction es with
  | nil => simp
  | cons a es ih =>
    rw [List.length_cons, List.range_succ_eq_map, List.map_cons, List.map_map]
    have hcomp : ((fun i => (a :: es).getD i d) ∘ Nat.succ) = fun i => es.getD i d := by
      funext i; rfl
    rw [hcomp, ih]
    rfl

end LocalRag

namespace LocalRag

theorem flatten_map_singleton {α : Type} :
    ∀ (l : List α), (l.map (fun a => [a])).flatten = l := by
  intro l
  induction l with
  | nil => rfl
  | cons a l ih => simp [ih]

/-! ### Claim C10 -/

/-- C10: for every entity list, embedding configuration and threshold, the
clusters returned by `cluster_entities` are a partition of the input: their
concatenation is a permutation of the input (each input position appears in
exactly one cluster), and at the index level every cluster is non-empty
with its seed (first element) at an input position strictly before every
other member. -/
theorem c10_theorem (embedM : Option (String → Option (List ℚ)))
    (entities : List Entity) (t : ℚ) :
    (cluster_entities embedM entities t).flatten.Perm entities ∧
    ∃ ic : List (List Nat),
      cluster_entities embedM entities t =
        ic.map (fun c => c.map (fun i => entities.getD i dfltEntity)) ∧
      ic.flatten.Perm (List.range entities.length) ∧
      ∀ c ∈ ic, ∃ i mem, c = i :: mem ∧ ∀ j ∈ mem, i < j := by
  by_cases hc : entities.isEmpty || embedM.isNone
  · rw [show cluster_entities embedM entities t = entities.map (fun e => [e]) by
      simp only [cluster_entities, hc, if_pos]]
    refine ⟨by rw [flatten_map_singleton], (List.range entities.length).map (fun i => [i]), ?_, ?_, ?_⟩
    · rw [List.map_map]
      have h1 : ((fun c => c.map (fun i => entities.getD i dfltEntity)) ∘ fun i => [i]) =
          (fun e => [e]) ∘ (fun i => entities.getD i dfltEntity) := by
        funext i; rfl
      rw [h1, ← List.map_map, getD_range_map]
    · rw [flatten_map_singleton]
    · intro c hcmem
      rcases List.mem_map.mp hcmem with ⟨i, _, rfl⟩
      exact ⟨i, [], rfl, by simp⟩
  · have hres : cluster_entities embedM entities t =
        (outerGo (fun i j =>
          @decide ((t : ℝ) ≤ cosineSim
            ((computeEmbeddings (embedM.getD (fun _ => none)) entities []).getD i [])
            ((computeEmbeddings (embedM.getD (fun _ => none)) entities []).getD j []))
          (Classical.propDecidable _)) (List.range entities.length) []).map
          (fun c => c.map (fun i => entities.getD i dfltEntity)) := by
      simp only [cluster_entities, hc, if_neg, Bool.false_eq_true, not_false_iff]
    rw [hres]
    set acc : Nat → Nat → Bool := fun i j =>
      @decide ((t : ℝ) ≤ cosineSim
        ((computeEmbeddings (embedM.getD (fun _ => none)) entities []).getD i [])
        ((computeEmbeddings (embedM.getD (fun _ => none)) entities []).getD j []))
      (Classical.propDecidable _) with hacc
    have hperm := outerGo_perm acc (List.range entities.length) (List.nodup_range _)
    constructor
    · rw [← List.map_flatten]
      have := hperm.map (fun i => entities.getD i dfltEntity)
      rwa [getD_range_map] at this
    · exact ⟨outerGo acc (List.range entities.length) [], rfl, hperm,
        outerGo_shape acc _ [] (List.pairwise_lt_range _) ⟩

/-! ### Claim C6 -/

/-- C6: with no embedding provider configured, `cluster_entities` returns
exactly one singleton cluster per input entity, in input order. -/
theorem c6_theorem (entities : List Entity) (t : ℚ) :
    cluster_entities none entities t = entities.map (fun e => [e]) := by
  simp [cluster_entities]

end LocalRag

namespace LocalRag

/-! ### Claim C5 -/

theorem dotQ_cons (a b : ℚ) (v w : List ℚ) :
    dotQ (a :: v) (b :: w) = a * b + dotQ v w := by
  simp [dotQ]

theorem dotQ_self_nonneg : ∀ (v : List ℚ), 0 ≤ dotQ v v := by
  intro v
  induction v with
  | nil => simp [dotQ]
  | cons a v ih =>
    rw [dotQ_cons]
    have : 0 ≤ a * a := mul_self_nonneg a
    linarith

/-- For equal arguments the cosine denominator squares away the roots. -/
theorem cosineSim_self (v : List ℚ) :
    cosineSim v v = ((dotQ v v : ℚ) : ℝ) / (((dotQ v v : ℚ) : ℝ) + 1 / 10 ^ 10) := by
  unfold cosineSim
  rw [Real.mul_self_sqrt (by exact_mod_cast dotQ_self_nonneg v)]

theorem lookup_val_mem {α : Type} [BEq α] :
    ∀ (l : List (α × List ℚ)) (k : α) (w : List ℚ),
      l.lookup k = some w → ∃ p ∈ l, p.2 = w := by
  intro l
  induction l with
  | nil => intro k w h; cases h
  | cons a l ih =>
    intro k w h
    cases hbe : (k == a.1) with
    | true =>
      simp only [List.lookup, hbe] at h
      exact ⟨a, List.mem_cons_self a l, Option.some_inj.mp h⟩
    | false =>
      simp only [List.lookup, hbe] at h
      rcases ih k w h with ⟨p, hp, hpv⟩
      exact ⟨p, List.mem_cons_of_mem a hp, hpv⟩

/-- A provider that returns `v` for every name makes every embedding `v`
(the cache can only hold `v`). -/
theorem computeEmbeddings_const (f : String → Option (List ℚ)) (v : List ℚ)
    (hf : ∀ name, f name = some v) :
    ∀ (es : List Entity) (cache : List (String × List ℚ)),
      (∀ p ∈ cache, p.2 = v) → computeEmbeddings f es cache = List.replicate es.length v := by
  intro es
  induction es with
  | nil => intro cache _; rfl
  | cons e es ih =>
    intro cache hcache
    simp only [computeEmbeddings]
    match hl : cache.lookup e.id with
    | some w =>
      rcases lookup_val_mem cache e.id w hl with ⟨p, hp, hpv⟩
      rw [show w = v from hpv ▸ hcache p hp, ih cache hcache]
      rfl
    | none =>
      rw [hf e.name]
      simp only [Option.getD_some]
      rw [ih ((e.id, v) :: cache) ?_]
      · rfl
      · intro p hp
        rcases List.mem_cons.mp hp with rfl | hp'
        · rfl
        · exact hcache p hp'

theorem innerGo_all_true (acc : Nat → Nat → Bool) (i : Nat) :
    ∀ (js used : List Nat), js.Nodup → (∀ j ∈ js, j ∉ used) →
      (∀ j ∈ js, acc i j = true) → (innerGo acc i js used).1 = js := by
  intro js
  induction js with
  | nil => intro used _ _ _; rfl
  | cons j js ih =>
    intro used hnd hdisj hacc
    simp only [innerGo]
    rw [if_neg (hdisj j (List.mem_cons_self j js)),
      if_pos (hacc j (List.mem_cons_self j js))]
    have htail : (innerGo acc i js (j :: used)).1 = js := by
      apply ih (j :: used) hnd.of_cons
      · intro j' hj' hmem
        rcases List.mem_cons.mp hmem with rfl | hmem'
        · exact (List.nodup_cons.mp hnd).1 hj'
        · exact hdisj j' (List.mem_cons_of_mem j hj') hmem'
      · intro j' hj'
        exact hacc j' (List.mem_cons_of_mem j hj')
    simp [htail]

theorem outerGo_all_used (acc : Nat → Nat → Bool) :
    ∀ (js used : List Nat), (∀ j ∈ js, j ∈ used) → outerGo acc js used = [] := by
  intro js
  induction js with
  | nil => intro used _; rfl
  | cons j js ih =>
    intro used hall
    simp only [outerGo]
    rw [if_pos (hall j (List.mem_cons_self j js))]
    exact ih used (fun j' hj' => hall j' (List.mem_cons_of_mem j hj'))

theorem outerGo_all_true (acc : Nat → Nat → Bool) (i : Nat) (rest : List Nat)
    (hnd : (i :: rest).Nodup)
    (hacc : ∀ a ∈ i :: rest, ∀ b ∈ i :: rest, acc a b = true) :
    outerGo acc (i :: rest) [] = [i :: rest] := by
  simp only [outerGo]
  rw [if_neg (List.not_mem_nil i)]
  have h1 : (innerGo acc i rest [i]).1 = rest := by
    apply innerGo_all_true acc i rest [i] hnd.of_cons
    · intro j hj hmem
      rw [List.mem_singleton] at hmem
      exact (List.nodup_cons.mp hnd).1 (hmem ▸ hj)
    · intro j hj
      exact hacc i (List.mem_cons_self i rest) j (List.mem_cons_of_mem i hj)
  have h2 : outerGo acc rest (innerGo acc i rest [i]).2 = [] := by
    apply outerGo_all_used
    intro j hj
    rw [innerGo_snd_mem]
    left
    rw [h1]
    exact hj
  simp [h1, h2]

/-- `(replicate n v).getD i d = v` below the length. -/
theorem getD_replicate {α : Type} (v d : α) :
    ∀ (n i : Nat), i < n → (List.replicate n v).getD i d = v := by
  intro n
  induction n with
  | zero => intro i h; omega
  | succ n ih =>
    intro i h
    cases i with
    | zero => rfl
    | succ i => exact ih i (by omega)

/-- Unfolding of `cluster_entities` in the configured-provider, non-empty
case: greedy clustering of the index range under the cosine-threshold
acceptance test. -/
theorem cluster_entities_some (f : String → Option (List ℚ))
    (entities : List Entity) (t : ℚ) (hne : entities ≠ []) :
    cluster_entities (some f) entities t =
      (outerGo (fun i j =>
        @decide ((t : ℝ) ≤ cosineSim
          ((computeEmbeddings f entities []).getD i [])
          ((computeEmbeddings f entities []).getD j []))
        (Classical.propDecidable _)) (List.range entities.length) []).map
        (fun c => c.map (fun i => entities.getD i dfltEntity)) := by
  have hcond : (entities.isEmpty || (Option.isNone (some f))) = false := by
    cases entities with
    | nil => exact absurd rfl hne
    | cons a l => rfl
  simp only [cluster_entities, hcond, Bool.false_eq_true, if_neg, not_false_iff,
    Option.getD_some]

end LocalRag

namespace LocalRag

/-- A sample entity for concrete instances. -/
def entA : Entity :=
  { id := "a", name := "A", entity_type := .PERSON, first_seen := "t0", last_seen := "t0" }

/-- A second sample entity for concrete instances. -/
def entB : Entity :=
  { id := "b", name := "B", entity_type := .PERSON, first_seen := "t0", last_seen := "t0" }

/-- C5 (counterexample): with a provider returning the identical vector
`[1]` for every name and threshold `1.0` (which is `≤ 1.0`), the denominator
epsilon makes the self-similarity `1/(1 + 1e-10) < 1`, so `cluster_entities`
returns two singleton clusters, not one cluster with both entities. -/
theorem c5_counterexample :
    cluster_entities (some (fun _ => some [(1 : ℚ)])) [entA, entB] 1 = [[entA], [entB]] := by
  rw [cluster_entities_some (fun _ => some [(1 : ℚ)]) [entA, entB] 1 (by simp)]
  have hembs : computeEmbeddings (fun _ => some [(1 : ℚ)]) [entA, entB] [] =
      [[(1 : ℚ)], [(1 : ℚ)]] := by rfl
  rw [hembs]
  have hsim : cosineSim [(1 : ℚ)] [(1 : ℚ)] = 1 / (1 + 1 / 10 ^ 10) := by
    rw [cosineSim_self]
    norm_num [dotQ]
  have hlt : ¬ (((1 : ℚ) : ℝ) ≤ cosineSim [(1 : ℚ)] [(1 : ℚ)]) := by
    rw [hsim, not_le]
    push_cast
    rw [div_lt_one (by norm_num)]
    norm_num
  have hrange : List.range ([entA, entB].length) = [0, 1] := by rfl
  rw [hrange]
  have hA : (fun i j =>
      @decide (((1 : ℚ) : ℝ) ≤ cosineSim
        (([[(1 : ℚ)], [(1 : ℚ)]] : List (List ℚ)).getD i [])
        (([[(1 : ℚ)], [(1 : ℚ)]] : List (List ℚ)).getD j []))
      (Classical.propDecidable _)) 0 1 = false := by
    simp only [List.getD_cons_zero, List.getD_cons_succ]
    exact decide_eq_false hlt
  rw [show outerGo (fun i j =>
      @decide (((1 : ℚ) : ℝ) ≤ cosineSim
        (([[(1 : ℚ)], [(1 : ℚ)]] : List (List ℚ)).getD i [])
        (([[(1 : ℚ)], [(1 : ℚ)]] : List (List ℚ)).getD j []))
      (Classical.propDecidable _)) [0, 1] [] = [[0], [1]] by
    simp only [outerGo, innerGo, List.not_mem_nil, if_neg, List.mem_singleton,
      List.mem_cons, hA]
    norm_num]
  rfl

/-- C5 (amended): with a provider returning the identical vector `v` for
every input name and a non-empty entity list, `cluster_entities` returns
exactly one cluster containing all the entities — provided the threshold
does not exceed the actual common pairwise similarity
`Q / (Q + 1e-10)` where `Q = ⟨v,v⟩` (strictly below 1, so threshold 1.0
fails; and 0 when `v` is the zero vector). -/
theorem c5_theorem (f : String → Option (List ℚ)) (v : List ℚ)
    (entities : List Entity) (t : ℚ)
    (hne : entities ≠ [])
    (hf : ∀ name, f name = some v)
    (ht : t ≤ dotQ v v / (dotQ v v + 1 / 10 ^ 10)) :
    cluster_entities (some f) entities t = [entities] := by
  rw [cluster_entities_some f entities t hne]
  have hembs : computeEmbeddings f entities [] = List.replicate entities.length v :=
    computeEmbeddings_const f v hf entities [] (by intro p hp; cases hp)
  rw [hembs]
  have hsimle : (t : ℝ) ≤ cosineSim v v := by
    rw [cosineSim_self]
    have h10 : ((10 : ℚ) : ℝ) = (10 : ℝ) := by norm_num
    calc (t : ℝ) ≤ ((dotQ v v / (dotQ v v + 1 / 10 ^ 10) : ℚ) : ℝ) := by
          exact_mod_cast ht
      _ = ((dotQ v v : ℚ) : ℝ) / (((dotQ v v : ℚ) : ℝ) + 1 / 10 ^ 10) := by
          push_cast
          ring
  have hn : entities.length ≠ 0 := fun h => hne (List.length_eq_zero.mp h)
  obtain ⟨n, hnn⟩ : ∃ n, entities.length = n + 1 :=
    ⟨entities.length - 1, by omega⟩
  have hrange : List.range entities.length = 0 :: (List.range n).map Nat.succ := by
    rw [hnn, List.range_succ_eq_map]
  rw [hrange]
  have hacc : ∀ a ∈ 0 :: (List.range n).map Nat.succ,
      ∀ b ∈ 0 :: (List.range n).map Nat.succ,
      (fun i j => @decide ((t : ℝ) ≤ cosineSim
        ((List.replicate entities.length v).getD i [])
        ((List.replicate entities.length v).getD j []))
        (Classical.propDecidable _)) a b = true := by
    intro a ha b hb
    have hlt : ∀ x ∈ 0 :: (List.range n).map Nat.succ, x < entities.length := by
      intro x hx
      rcases List.mem_cons.mp hx with rfl | hx'
      · omega
      · rcases List.mem_map.mp hx' with ⟨y, hy, rfl⟩
        have := List.mem_range.mp hy
        omega
    show (@decide ((t : ℝ) ≤ cosineSim
        ((List.replicate entities.length v).getD a [])
        ((List.replicate entities.length v).getD b []))
      (Classical.propDecidable _)) = true
    rw [getD_replicate v [] entities.length a (hlt a ha),
      getD_replicate v [] entities.length b (hlt b hb)]
    exact decide_eq_true hsimle
  rw [outerGo_all_true _ 0 ((List.range n).map Nat.succ) ?_ hacc]
  · rw [← hrange, List.map_cons, List.map_nil]
    congr 1
    exact getD_range_map dfltEntity entities
  · rw [← hrange]
    exact List.nodup_range _

/-- C5 (witness): a concrete run of the amended statement: two entities,
constant vector `[1]`, threshold `1/2 ≤ 1/(1 + 1e-10)`: one cluster. -/
theorem c5_witness :
    ([entA, entB] ≠ ([] : List Entity)) ∧
    (∀ name, (fun _ : String => some [(1 : ℚ)]) name = some [(1 : ℚ)]) ∧
    ((1 : ℚ) / 2 ≤ dotQ [1] [1] / (dotQ [1] [1] + 1 / 10 ^ 10)) ∧
    cluster_entities (some (fun _ => some [(1 : ℚ)])) [entA, entB] (1 / 2) =
      [[entA, entB]] :=
  ⟨by simp, fun _ => rfl, by norm_num [dotQ],
   c5_theorem (fun _ => some [(1 : ℚ)]) [(1 : ℚ)] [entA, entB] (1 / 2)
     (by simp) (fun _ => rfl) (by norm_num [dotQ])⟩

end LocalRag

namespace LocalRag

/-! ### Claim C7 -/

/-- All (entity snapshot, timestamp) records of the temporal index, in
index order. -/
def allRecords (st : TemporalIndex) : List (Entity × String) :=
  (st.map Prod.snd).flatten

theorem query_inner_foldl (ty : EntityType) (s e : String) :
    ∀ (records : List (Entity × String)) (acc : List Entity),
      records.foldl (fun results r =>
        if r.1.entity_type = ty ∧ s ≤ r.2 ∧ r.2 ≤ e then results ++ [r.1] else results) acc =
      acc ++ (records.filter (fun r =>
        decide (r.1.entity_type = ty) && decide (s ≤ r.2) && decide (r.2 ≤ e))).map Prod.fst := by
  intro records
  induction records with
  | nil => intro acc; simp
  | cons r records ih =>
    intro acc
    simp only [List.foldl_cons, List.filter_cons]
    by_cases h : r.1.entity_type = ty ∧ s ≤ r.2 ∧ r.2 ≤ e
    · rw [if_pos h, ih]
      have hb : (decide (r.1.entity_type = ty) && decide (s ≤ r.2) && decide (r.2 ≤ e)) = true := by
        simp [h.1, h.2.1, h.2.2]
      rw [hb]
      simp
    · rw [if_neg h, ih]
      have hb : (decide (r.1.entity_type = ty) && decide (s ≤ r.2) && decide (r.2 ≤ e)) = false := by
        by_contra hcon
        rw [Bool.not_eq_false, Bool.and_eq_true, Bool.and_eq_true] at hcon
        exact h ⟨of_decide_eq_true hcon.1.1, of_decide_eq_true hcon.1.2,
          of_decide_eq_true hcon.2⟩
      rw [hb]
      simp

/-- C7: `query_temporal_entities(T, start, end)` returns exactly the
recorded entity snapshots whose type is `T` and whose recorded timestamp
lies in the inclusive window `[start, end]` — equivalently, an entity is in
the result precisely when some record of it satisfies type and window, so
records under another type or outside the window contribute nothing. -/
theorem c7_theorem (st : TemporalIndex) (ty : EntityType) (s e : String) :
    query_temporal_entities st ty s e =
      ((allRecords st).filter (fun r =>
        decide (r.1.entity_type = ty) && decide (s ≤ r.2) && decide (r.2 ≤ e))).map Prod.fst ∧
    ∀ x : Entity, x ∈ query_temporal_entities st ty s e ↔
      ∃ ts : String, (x, ts) ∈ allRecords st ∧ x.entity_type = ty ∧ s ≤ ts ∧ ts ≤ e := by
  have hmain : ∀ (l : List (String × List (Entity × String))) (acc : List Entity),
      l.foldl (fun results p =>
        p.2.foldl (fun results r =>
          if r.1.entity_type = ty ∧ s ≤ r.2 ∧ r.2 ≤ e then results ++ [r.1] else results)
          results) acc =
      acc ++ ((allRecords l).filter (fun r =>
        decide (r.1.entity_type = ty) && decide (s ≤ r.2) && decide (r.2 ≤ e))).map Prod.fst := by
    intro l
    induction l with
    | nil => intro acc; simp [allRecords]
    | cons p l ih =>
      intro acc
      simp only [List.foldl_cons]
      rw [query_inner_foldl ty s e p.2 acc, ih]
      simp [allRecords, List.filter_append]
  have h1 : query_temporal_entities st ty s e =
      ((allRecords st).filter (fun r =>
        decide (r.1.entity_type = ty) && decide (s ≤ r.2) && decide (r.2 ≤ e))).map Prod.fst := by
    rw [query_temporal_entities, hmain st []]
    rfl
  refine ⟨h1, ?_⟩
  intro x
  rw [h1]
  constructor
  · intro hx
    rcases List.mem_map.mp hx with ⟨r, hr, rfl⟩
    rcases List.mem_filter.mp hr with ⟨hrm, hrp⟩
    rw [Bool.and_eq_true, Bool.and_eq_true] at hrp
    exact ⟨r.2, hrm, of_decide_eq_true hrp.1.1, of_decide_eq_true hrp.1.2,
      of_decide_eq_true hrp.2⟩
  · intro ⟨ts, hmem, hty, hs, he⟩
    apply List.mem_map.mpr
    refine ⟨(x, ts), List.mem_filter.mpr ⟨hmem, ?_⟩, rfl⟩
    simp [hty, hs, he]

/-! ### Claim C8 -/

/-- C8: `get_entity_timeline` always returns a list whose timestamps are
non-decreasing in lexicographic string order, and returns `[]` for an id
that was never recorded. -/
theorem c8_theorem (st : TemporalIndex) (entity_id : String) :
    List.Pairwise (fun a b : String × String => a.1 ≤ b.1)
      (get_entity_timeline st entity_id) ∧
    (st.lookup entity_id = none → get_entity_timeline st entity_id = []) := by
  constructor
  · rw [get_entity_timeline]
    match st.lookup entity_id with
    | none => exact List.Pairwise.nil
    | some records =>
      have hs := @List.sorted_mergeSort (String × String)
        (fun a b => decide (a.1 ≤ b.1))
        (fun a b c hab hbc =>
          decide_eq_true (le_trans (of_decide_eq_true hab) (of_decide_eq_true hbc)))
        (fun a b => by
          rcases le_total a.1 b.1 with h | h
          · simp [h]
          · simp [h])
        (records.map (fun r => (r.2, "Mentioned in " ++ r.1.name)))
      exact hs.imp (fun h => of_decide_eq_true h)
  · intro hnone
    rw [get_entity_timeline, hnone]

/-- C8 (witness): the empty temporal index with an unknown id. -/
theorem c8_witness :
    (List.lookup "x" ([] : TemporalIndex) = none) ∧
    get_entity_timeline ([] : TemporalIndex) "x" = [] :=
  ⟨rfl, (c8_theorem ([] : TemporalIndex) "x").2 rfl⟩

end LocalRag

namespace LocalRag

/-! ### Claim C1 -/

theorem relLoop_stats (fail : Nat → Bool) :
    ∀ (rels : List Relationship) (st : Graph × Stats × Nat),
      (KnowledgeGraphBuilder.relLoop fail rels st).2.1.relationships_created =
        st.2.1.relationships_created + rels.length ∧
      (KnowledgeGraphBuilder.relLoop fail rels st).2.1.relationships_extracted =
        st.2.1.relationships_extracted := by
  intro rels
  induction rels with
  | nil =>
    intro st
    exact ⟨rfl, rfl⟩
  | cons rel rest ih =>
    intro st
    obtain ⟨g, stats, k⟩ := st
    simp only [KnowledgeGraphBuilder.relLoop]
    constructor
    · rw [(ih _).1]
      simp only [List.length_cons]
      omega
    · rw [(ih _).2]

theorem chunkStep_stats (fail : Nat → Bool) (now document_id : String)
    (st : Graph × Stats × Nat × List Entity) (i : Nat) (c : ChunkD) :
    ∃ L,
      (KnowledgeGraphBuilder.chunkStep fail now document_id st i c).2.1.relationships_created =
        st.2.1.relationships_created + L ∧
      (KnowledgeGraphBuilder.chunkStep fail now document_id st i c).2.1.relationships_extracted =
        st.2.1.relationships_extracted + L := by
  refine ⟨(extract_relationships now (c.text.getD "")
    (extract_entities now (c.text.getD ""))).length, ?_, ?_⟩
  · simp only [KnowledgeGraphBuilder.chunkStep]
    rw [(relLoop_stats fail _ _).1]
  · simp only [KnowledgeGraphBuilder.chunkStep]
    rw [(relLoop_stats fail _ _).2]

theorem chunkLoop_stats (fail : Nat → Bool) (now document_id : String) :
    ∀ (l : List (Nat × ChunkD)) (st : Graph × Stats × Nat × List Entity),
      st.2.1.relationships_created = st.2.1.relationships_extracted →
      (KnowledgeGraphBuilder.chunkLoop fail now document_id l st).2.1.relationships_created =
        (KnowledgeGraphBuilder.chunkLoop fail now document_id l st).2.1.relationships_extracted := by
  intro l
  induction l with
  | nil => intro st h; exact h
  | cons p l ih =>
    intro st h
    obtain ⟨i, c⟩ := p
    simp only [KnowledgeGraphBuilder.chunkLoop]
    apply ih
    rcases chunkStep_stats fail now document_id st i c with ⟨L, h1, h2⟩
    rw [h1, h2, h]

/-- C1 (amended): relationship-creation failures never raise out of
`build_graph_from_chunks` (the model is total for every failure oracle),
but `stats['relationships_created']` counts every *attempted* relationship
creation — it always equals `relationships_extracted`, no matter which
creations fail. -/
theorem c1_theorem (embedM : Option (String → Option (List ℚ)))
    (enable_clustering : Bool) (fail : Nat → Bool) (now : String) (g0 : Graph)
    (chunks : List ChunkD) (document_id document_name : String) :
    (KnowledgeGraphBuilder.build_graph_from_chunks embedM enable_clustering fail now g0
      chunks document_id document_name).2.relationships_created =
    (KnowledgeGraphBuilder.build_graph_from_chunks embedM enable_clustering fail now g0
      chunks document_id document_name).2.relationships_extracted := by
  simp only [KnowledgeGraphBuilder.build_graph_from_chunks]
  set r := KnowledgeGraphBuilder.chunkLoop fail now document_id chunks.enum
    (KnowledgeGraphBuilder._create_document_node now g0 document_id document_name,
     { Stats.mk 0 0 0 0 0 with nodes_created := Stats.nodes_created {} + 1 }, 0, []) with hr
  have hbase := chunkLoop_stats fail now document_id chunks.enum
    (KnowledgeGraphBuilder._create_document_node now g0 document_id document_name,
     { Stats.mk 0 0 0 0 0 with nodes_created := Stats.nodes_created {} + 1 }, 0, []) rfl
  cases hcond : (enable_clustering && !r.2.2.2.isEmpty) with
  | true =>
    simp only [hcond, if_pos]
    rw [← hr] at hbase
    exact hbase
  | false =>
    simp only [hcond, Bool.false_eq_true, if_neg, not_false_iff]
    rw [← hr] at hbase
    exact hbase

end LocalRag

namespace LocalRag

set_option maxRecDepth 4000 in
/-- C1 (counterexample): one chunk `"Google and Apple"` yields one
extracted CO_OCCURS relationship; with the driver raising `Neo4jError` on
every relationship statement (`fail` constantly true) the creation fails —
no CO_OCCURS edge is in the final graph — yet the returned
`relationships_created` is 1, not 0: failed attempts are counted. -/
theorem c1_counterexample :
    (KnowledgeGraphBuilder.build_graph_from_chunks none true (fun _ => true) "T"
      Graph.empty [{ text := some "Google and Apple" }] "doc1" "Doc").2.relationships_created
      = 1 ∧
    (KnowledgeGraphBuilder.build_graph_from_chunks none true (fun _ => true) "T"
      Graph.empty [{ text := some "Google and Apple" }] "doc1" "Doc").2.relationships_extracted
      = 1 ∧
    ((KnowledgeGraphBuilder.build_graph_from_chunks none true (fun _ => true) "T"
      Graph.empty [{ text := some "Google and Apple" }] "doc1" "Doc").1.rels.filter
        (fun r => r.rtype == "CO_OCCURS")) = [] :=
  ⟨by decide, by decide, by decide⟩

end LocalRag

namespace LocalRag

/-! ### Shape of pattern matches -/

/-- Does a character list start with an ASCII uppercase letter? -/
def headUpperB : List Char → Bool
  | [] => false
  | c :: _ => c.isUpper

theorem mrun_bound (k : RE) (s : List Char) (prev : Option Char)
    (p : List Char × List Char) (h : mrun (.boundThen k) s prev = some p) :
    mrun k s prev = some p := by
  simp only [mrun] at h
  split at h
  · exact h
  · cases h

theorem mrun_cls_head (f : Char → Bool) (k : RE) (s : List Char) (prev : Option Char)
    (m r : List Char) (h : mrun (.clsThen f k) s prev = some (m, r)) :
    ∃ c m', m = c :: m' ∧ f c = true := by
  simp only [mrun] at h
  split at h
  · cases h
  · rename_i c s'
    split at h
    · split at h
      · rename_i p hp
        simp only [Option.some_inj, Prod.mk.injEq] at h
        exact ⟨c, p.1, h.1.symm, by assumption⟩
      · cases h
    · cases h

theorem altTry_head (cont : Cont) :
    ∀ (lits : List (List Char)) (s : List Char) (prev : Option Char)
      (m r : List Char), altTry cont lits s prev = some (m, r) →
      ∃ w ∈ lits, ∃ m', m = w ++ m' := by
  intro lits
  induction lits with
  | nil => intro s prev m r h; cases h
  | cons w ws ih =>
    intro s prev m r h
    simp only [altTry] at h
    split at h
    · split at h
      · rename_i p hp
        simp only [Option.some_inj, Prod.mk.injEq] at h
        exact ⟨w, List.mem_cons_self w ws, p.1, h.1.symm⟩
      · rcases ih s prev m r h with ⟨w', hw', m', hm'⟩
        exact ⟨w', List.mem_cons_of_mem w hw', m', hm'⟩
    · rcases ih s prev m r h with ⟨w', hw', m', hm'⟩
      exact ⟨w', List.mem_cons_of_mem w hw', m', hm'⟩

theorem mrun_alt_head (lits : List (List Char)) (k : RE) (s : List Char)
    (prev : Option Char) (m r : List Char)
    (h : mrun (.altArm lits k) s prev = some (m, r)) :
    ∃ w ∈ lits, ∃ m', m = w ++ m' := by
  simp only [mrun] at h
  exact altTry_head _ lits s prev m r h

theorem mscan_mem (pat : RE) :
    ∀ (fuel : Nat) (s : List Char) (prev : Option Char) (m : List Char),
      m ∈ mscan pat fuel s prev →
      ∃ s' prev' r, mrun pat s' prev' = some (m, r) := by
  intro fuel
  induction fuel with
  | zero => intro s prev m h; cases h
  | succ fuel ih =>
    intro s prev m h
    simp only [mscan] at h
    split at h
    · rename_i p hrun
      split at h
      · split at h
        · cases h
        · exact ih _ _ m h
      · rcases List.mem_cons.mp h with rfl | h'
        · exact ⟨s, prev, p.2, hrun⟩
        · exact ih p.2 p.1.getLast? m h'
    · split at h
      · cases h
      · exact ih _ _ m h

theorem finditer_mem (pat : RE) (text : List Char) (m : List Char)
    (h : m ∈ finditer pat text) : ∃ s' prev' r, mrun pat s' prev' = some (m, r) :=
  mscan_mem pat (text.length + 1) text none m h

/-- Every match of a `\b[A-Z]...`-shaped pattern starts uppercase. -/
theorem finditer_clsUpper_head (k : RE) (text : List Char) (m : List Char)
    (h : m ∈ finditer (.boundThen (.clsThen Char.isUpper k)) text) :
    headUpperB m = true := by
  rcases finditer_mem _ text m h with ⟨s', prev', r, hrun⟩
  rcases mrun_cls_head Char.isUpper k s' prev' m r (mrun_bound _ s' prev' (m, r) hrun)
    with ⟨c, m', rfl, hc⟩
  exact hc

/-- Every match of a `\b(?:Lit|...)...`-shaped pattern whose literals all
start uppercase starts uppercase. -/
theorem finditer_alt_head (lits : List (List Char)) (k : RE) (text : List Char)
    (m : List Char) (hlits : lits.all headUpperB = true)
    (h : m ∈ finditer (.boundThen (.altArm lits k)) text) :
    headUpperB m = true := by
  rcases finditer_mem _ text m h with ⟨s', prev', r, hrun⟩
  rcases mrun_alt_head lits k s' prev' m r (mrun_bound _ s' prev' (m, r) hrun)
    with ⟨w, hw, m', rfl⟩
  have hwu : headUpperB w = true := List.all_eq_true.mp hlits w hw
  match w, hwu with
  | c :: w', hwu => exact hwu

/-- Every regex match of the `ENTITY_PATTERNS` table starts with an
uppercase letter (whereas every concept keyword starts lowercase). -/
theorem entity_patterns_head_upper (ty : EntityType) (pats : List RE)
    (hin : (ty, pats) ∈ ENTITY_PATTERNS) (pat : RE) (hpat : pat ∈ pats)
    (text : List Char) (m : List Char) (h : m ∈ finditer pat text) :
    headUpperB m = true := by
  have hcase : pat = personPat1 ∨ pat = personPat2 ∨ pat = orgPat1 ∨ pat = orgPat2 ∨
      pat = techPat1 ∨ pat = techPat2 ∨ pat = techPat3 ∨ pat = locPat1 ∨ pat = locPat2 := by
    simp only [ENTITY_PATTERNS, List.mem_cons, List.not_mem_nil, or_false] at hin
    rcases hin with h1 | h1 | h1 | h1
    all_goals rw [Prod.mk.injEq] at h1
    all_goals rcases h1 with ⟨_, rfl⟩
    all_goals simp only [List.mem_cons, List.not_mem_nil, or_false] at hpat
    all_goals tauto
  rcases hcase with rfl | rfl | rfl | rfl | rfl | rfl | rfl | rfl | rfl
  · exact finditer_clsUpper_head _ text m h
  · exact finditer_clsUpper_head _ text m h
  · exact finditer_clsUpper_head _ text m h
  · exact finditer_alt_head _ _ text m (by decide) h
  · exact finditer_alt_head _ _ text m (by decide) h
  · exact finditer_alt_head _ _ text m (by decide) h
  · exact finditer_alt_head _ _ text m (by decide) h
  · exact finditer_alt_head _ _ text m (by decide) h
  · exact finditer_alt_head _ _ text m (by decide) h

end LocalRag

namespace LocalRag

/-! ### Invariants of the `extract_entities` folds -/

/-- Invariant carried through the pattern phase: names are duplicate-free,
every emitted name is registered in `seen_names`, every emitted name starts
uppercase, and every id is the (name, type)-hash. -/
def PatInv (acc : List Entity × List String) : Prop :=
  (acc.1.map Entity.name).Nodup ∧
  (∀ e ∈ acc.1, e.name ∈ acc.2) ∧
  (∀ e ∈ acc.1, headUpperB e.name.toList = true) ∧
  (∀ e ∈ acc.1, e.id = entityId e.name e.entity_type.value)

theorem emitNames_inv (now : String) (ty : EntityType) :
    ∀ (nms : List (List Char)) (acc : List Entity × List String),
      (∀ nm ∈ nms, headUpperB nm = true) → PatInv acc →
      PatInv (emitNames now ty nms acc) := by
  intro nms
  induction nms with
  | nil => intro acc _ hinv; exact hinv
  | cons nm nms ih =>
    intro acc hup hinv
    simp only [emitNames]
    by_cases hseen : String.mk nm ∈ acc.2
    · rw [if_pos hseen]
      exact ih acc (fun x hx => hup x (List.mem_cons_of_mem nm hx)) hinv
    · rw [if_neg hseen]
      apply ih _ (fun x hx => hup x (List.mem_cons_of_mem nm hx))
      obtain ⟨h1, h2, h3, h4⟩ := hinv
      refine ⟨?_, ?_, ?_, ?_⟩
      · rw [List.map_append]
        rw [List.nodup_append]
        refine ⟨h1, List.nodup_singleton _, ?_⟩
        intro x hx hx'
        rcases List.mem_map.mp hx with ⟨e, he, rfl⟩
        rw [List.map_cons, List.map_nil, List.mem_singleton] at hx'
        have hxn : e.name = String.mk nm := hx'
        exact hseen (hxn ▸ h2 e he)
      · intro e he
        rcases List.mem_append.mp he with he' | he'
        · exact List.mem_append_left _ (h2 e he')
        · rw [List.mem_singleton] at he'
          subst he'
          exact List.mem_append_right _ (by simp [mkEntity])
      · intro e he
        rcases List.mem_append.mp he with he' | he'
        · exact h3 e he'
        · rw [List.mem_singleton] at he'
          subst he'
          exact hup nm (List.mem_cons_self nm nms)
      · intro e he
        rcases List.mem_append.mp he with he' | he'
        · exact h4 e he'
        · rw [List.mem_singleton] at he'
          subst he'
          simp [mkEntity]

theorem emitPats_inv (now : String) (ty : EntityType) (s : List Char) :
    ∀ (pats : List RE) (acc : List Entity × List String),
      (∀ pat ∈ pats, ∀ m ∈ finditer pat s, headUpperB m = true) → PatInv acc →
      PatInv (emitPats now ty s pats acc) := by
  intro pats
  induction pats with
  | nil => intro acc _ hinv; exact hinv
  | cons pat pats ih =>
    intro acc hup hinv
    simp only [emitPats]
    apply ih _ (fun p hp => hup p (List.mem_cons_of_mem pat hp))
    exact emitNames_inv now ty (finditer pat s) acc
      (hup pat (List.mem_cons_self pat pats)) hinv

theorem emitTypes_inv (now : String) (s : List Char) :
    ∀ (l : List (EntityType × List RE)) (acc : List Entity × List String),
      (∀ p ∈ l, ∀ pat ∈ p.2, ∀ m ∈ finditer pat s, headUpperB m = true) → PatInv acc →
      PatInv (emitTypes now s l acc) := by
  intro l
  induction l with
  | nil => intro acc _ hinv; exact hinv
  | cons p l ih =>
    intro acc hup hinv
    obtain ⟨ty, pats⟩ := p
    simp only [emitTypes]
    apply ih _ (fun q hq => hup q (List.mem_cons_of_mem _ hq))
    exact emitPats_inv now ty s pats acc
      (hup (ty, pats) (List.mem_cons_self _ l)) hinv

theorem emitKeywords_inv (now : String) (tl : List Char) :
    ∀ (kws : List String) (acc : List Entity × List String),
      kws.Nodup →
      (∀ e ∈ acc.1, e.name ∉ kws) →
      (acc.1.map Entity.name).Nodup →
      (∀ e ∈ acc.1, e.id = entityId e.name e.entity_type.value) →
      ((emitKeywords now tl kws acc).1.map Entity.name).Nodup ∧
      (∀ e ∈ (emitKeywords now tl kws acc).1,
        e.id = entityId e.name e.entity_type.value) := by
  intro kws
  induction kws with
  | nil => intro acc _ _ h3 h4; exact ⟨h3, h4⟩
  | cons kw kws ih =>
    intro acc hnd hdisj h3 h4
    have hdisj' : ∀ e ∈ acc.1, e.name ∉ kws :=
      fun e he hk => hdisj e he (List.mem_cons_of_mem kw hk)
    simp only [emitKeywords]
    by_cases hcont : pyContains tl kw.toList
    · rw [if_pos hcont]
      by_cases hid : entityId kw EntityType.CONCEPT.value ∈ acc.2
      · rw [if_pos hid]
        exact ih acc hnd.of_cons hdisj' h3 h4
      · rw [if_neg hid]
        apply ih _ hnd.of_cons
        · intro e he hk
          rcases List.mem_append.mp he with he' | he'
          · exact hdisj e he' (List.mem_cons_of_mem kw hk)
          · rw [List.mem_singleton] at he'
            subst he'
            exact (List.nodup_cons.mp hnd).1 hk
        · rw [List.map_append, List.nodup_append]
          refine ⟨h3, List.nodup_singleton _, ?_⟩
          intro x hx hx'
          rcases List.mem_map.mp hx with ⟨e, he, rfl⟩
          rw [List.map_cons, List.map_nil, List.mem_singleton] at hx'
          have hxn : e.name = kw := hx'
          exact hdisj e he (List.mem_cons.mpr (Or.inl hxn))
        · intro e he
          rcases List.mem_append.mp he with he' | he'
          · exact h4 e he'
          · rw [List.mem_singleton] at he'
            subst he'
            simp [conceptEntity]
    · rw [if_neg hcont]
      exact ih acc hnd.of_cons hdisj' h3 h4

/-! ### Claim C3 -/

set_option maxRecDepth 4000 in
/-- C3 (counterexample): in the text `"Google Inc"` the surface string
`"Google Inc"` is matched both by a PERSON pattern and by the first
ORGANIZATION pattern, yet the extractor emits only the PERSON entity for
it — the ORGANIZATION match of the same surface is skipped, so the same
name under two types does not produce two entities in one call. -/
theorem c3_counterexample :
    (finditer orgPat1 "Google Inc".toList = ["Google Inc".toList]) ∧
    ((extract_entities "T" "Google Inc").map (fun e => (e.name, e.entity_type.value)) =
      [("Google Inc", "PERSON"), ("Google", "ORGANIZATION")]) :=
  ⟨by decide, by decide⟩

/-- C3 (amended): within a single `extract_entities` call a surface string
that has already produced an entity is skipped, even when it is matched
again under a different entity type — the emitted surface forms are
duplicate-free. -/
theorem c3_theorem (now : String) (text : String) :
    ((extract_entities now text).map Entity.name).Nodup := by
  rw [extract_entities]
  have hinv : PatInv (emitTypes now text.toList ENTITY_PATTERNS ([], [])) := by
    apply emitTypes_inv
    · intro p hp pat hpat m hm
      exact entity_patterns_head_upper p.1 p.2 hp pat hpat text.toList m hm
    · exact ⟨List.nodup_nil, by simp, by simp, by simp⟩
  obtain ⟨h1, _, h3, h4⟩ := hinv
  have hlow : ∀ kw ∈ conceptKeywords, headUpperB kw.toList = false := by decide
  apply (emitKeywords_inv now (strLower text.toList) conceptKeywords _ (by decide) ?_ h1 h4).1
  intro e he hk
  have h3e := h3 e he
  rw [hlow e.name hk] at h3e
  exact Bool.false_ne_true h3e

/-! ### Claim C9 -/

/-- Replace the timestamps of an entity (the only fields of an extracted
entity that depend on the wall clock). -/
def reNow (now' : String) (e : Entity) : Entity :=
  { e with first_seen := now', last_seen := now' }

theorem emitNames_reNow (now now' : String) (ty : EntityType) :
    ∀ (nms : List (List Char)) (l : List Entity) (seen : List String),
      emitNames now' ty nms (l.map (reNow now'), seen) =
        ((emitNames now ty nms (l, seen)).1.map (reNow now'),
         (emitNames now ty nms (l, seen)).2) := by
  intro nms
  induction nms with
  | nil => intro l seen; rfl
  | cons nm nms ih =>
    intro l seen
    simp only [emitNames]
    by_cases hseen : String.mk nm ∈ seen
    · rw [if_pos hseen, if_pos hseen]
      exact ih l seen
    · rw [if_neg hseen, if_neg hseen]
      have hmk : l.map (reNow now') ++ [mkEntity now' (String.mk nm) ty (4 / 5)] =
          (l ++ [mkEntity now (String.mk nm) ty (4 / 5)]).map (reNow now') := by
        rw [List.map_append]
        simp [mkEntity, reNow]
      rw [hmk]
      exact ih (l ++ [mkEntity now (String.mk nm) ty (4 / 5)]) (seen ++ [String.mk nm])

theorem emitPats_reNow (now now' : String) (ty : EntityType) (s : List Char) :
    ∀ (pats : List RE) (l : List Entity) (seen : List String),
      emitPats now' ty s pats (l.map (reNow now'), seen) =
        ((emitPats now ty s pats (l, seen)).1.map (reNow now'),
         (emitPats now ty s pats (l, seen)).2) := by
  intro pats
  induction pats with
  | nil => intro l seen; rfl
  | cons pat pats ih =>
    intro l seen
    simp only [emitPats]
    rw [emitNames_reNow now now' ty (finditer pat s) l seen]
    exact ih _ _

theorem emitTypes_reNow (now now' : String) (s : List Char) :
    ∀ (tps : List (EntityType × List RE)) (l : List Entity) (seen : List String),
      emitTypes now' s tps (l.map (reNow now'), seen) =
        ((emitTypes now s tps (l, seen)).1.map (reNow now'),
         (emitTypes now s tps (l, seen)).2) := by
  intro tps
  induction tps with
  | nil => intro l seen; rfl
  | cons p tps ih =>
    intro l seen
    obtain ⟨ty, pats⟩ := p
    simp only [emitTypes]
    rw [emitPats_reNow now now' ty s pats l seen]
    exact ih _ _

theorem emitKeywords_reNow (now now' : String) (tl : List Char) :
    ∀ (kws : List String) (l : List Entity) (seen : List String),
      emitKeywords now' tl kws (l.map (reNow now'), seen) =
        ((emitKeywords now tl kws (l, seen)).1.map (reNow now'),
         (emitKeywords now tl kws (l, seen)).2) := by
  intro kws
  induction kws with
  | nil => intro l seen; rfl
  | cons kw kws ih =>
    intro l seen
    simp only [emitKeywords]
    by_cases hcont : pyContains tl kw.toList
    · rw [if_pos hcont, if_pos hcont]
      by_cases hid : entityId kw EntityType.CONCEPT.value ∈ seen
      · rw [if_pos hid, if_pos hid]
        exact ih l seen
      · rw [if_neg hid, if_neg hid]
        have hmk : l.map (reNow now') ++ [conceptEntity now' kw] =
            (l ++ [conceptEntity now kw]).map (reNow now') := by
          rw [List.map_append]
          simp [conceptEntity, reNow]
        rw [hmk]
        exact ih _ _
    · rw [if_neg hcont, if_neg hcont]
      exact ih l seen

/-- The wall clock only enters the timestamps of the extracted entities. -/
theorem extract_entities_reNow (now now' : String) (text : String) :
    extract_entities now' text = (extract_entities now text).map (reNow now') := by
  rw [extract_entities, extract_entities]
  have h1 := emitTypes_reNow now now' text.toList ENTITY_PATTERNS [] []
  simp only [List.map_nil] at h1
  rw [h1]
  have h2 := emitKeywords_reNow now now' (strLower text.toList) conceptKeywords
    (emitTypes now text.toList ENTITY_PATTERNS ([], [])).1
    (emitTypes now text.toList ENTITY_PATTERNS ([], [])).2
  rw [h2]

/-- C9: re-running `extract_entities` on identical text yields entity lists
with identical ids in the same order, whatever the wall clock reads on each
run; and every extracted entity's id is the deterministic hash of its
(name, type value) pair. -/
theorem c9_theorem :
    (∀ (now1 now2 text : String),
      (extract_entities now1 text).map Entity.id =
        (extract_entities now2 text).map Entity.id) ∧
    (∀ (now text : String), ∀ e ∈ extract_entities now text,
      e.id = entityId e.name e.entity_type.value) := by
  constructor
  · intro now1 now2 text
    rw [extract_entities_reNow now1 now2 text, List.map_map]
    rfl
  · intro now text
    have hinv : PatInv (emitTypes now text.toList ENTITY_PATTERNS ([], [])) := by
      apply emitTypes_inv
      · intro p hp pat hpat m hm
        exact entity_patterns_head_upper p.1 p.2 hp pat hpat text.toList m hm
      · exact ⟨List.nodup_nil, by simp, by simp, by simp⟩
    obtain ⟨h1, _, h3, h4⟩ := hinv
    have hlow : ∀ kw ∈ conceptKeywords, headUpperB kw.toList = false := by decide
    rw [extract_entities]
    apply (emitKeywords_inv now (strLower text.toList) conceptKeywords _
      (by decide) ?_ h1 h4).2
    intro e he hk
    have h3e := h3 e he
    rw [hlow e.name hk] at h3e
    exact Bool.false_ne_true h3e

set_option maxRecDepth 4000 in
/-- C9 (witness): the organisation entity extracted from `"Google"` has the
hash id of ("Google", "ORGANIZATION"). -/
theorem c9_witness :
    (mkEntity "T1" "Google" .ORGANIZATION (4 / 5) ∈ extract_entities "T1" "Google") ∧
    (mkEntity "T1" "Google" .ORGANIZATION (4 / 5)).id =
      entityId (mkEntity "T1" "Google" .ORGANIZATION (4 / 5)).name
        (mkEntity "T1" "Google" .ORGANIZATION (4 / 5)).entity_type.value := by
  have hmem : mkEntity "T1" "Google" .ORGANIZATION (4 / 5) ∈ extract_entities "T1" "Google" := by
    rw [show extract_entities "T1" "Google" =
      [mkEntity "T1" "Google" .ORGANIZATION (4 / 5)] from rfl]
    exact List.mem_singleton.mpr rfl
  exact ⟨hmem, c9_theorem.2 "T1" "Google" _ hmem⟩

end LocalRag

namespace LocalRag

/-! ### Claim C4 -/

/-- The emission condition and payload of `coOccur`, spelled out: first
case-insensitive occurrences of both names, distance strictly below 500,
`weight = max(0.3, 1 - distance/500)`, `confidence = weight`. -/
theorem coOccur_eq_some_iff (now : String) (tl : List Char) (e1 e2 : Entity)
    (r : Relationship) :
    coOccur now tl e1 e2 = some r ↔
    ∃ idx1 idx2 : Nat,
      pyFind tl (strLower e1.name.toList) = some idx1 ∧
      pyFind tl (strLower e2.name.toList) = some idx2 ∧
      max idx1 idx2 - min idx1 idx2 < 500 ∧
      r = { source_id := e1.id, target_id := e2.id, relation_type := .CO_OCCURS,
            confidence := max (3 / 10) (1 - ((max idx1 idx2 - min idx1 idx2 : Nat) : ℚ) / 500),
            weight := max (3 / 10) (1 - ((max idx1 idx2 - min idx1 idx2 : Nat) : ℚ) / 500),
            properties := [], timestamp := now } := by
  cases h1 : pyFind tl (strLower e1.name.toList) with
  | none =>
    constructor
    · intro h
      simp only [coOccur, h1] at h
      cases h
    · rintro ⟨idx1, idx2, hf1, _⟩
      cases hf1
  | some idx1 =>
    cases h2 : pyFind tl (strLower e2.name.toList) with
    | none =>
      constructor
      · intro h
        simp only [coOccur, h1, h2] at h
        cases h
      · rintro ⟨i1, i2, _, hf2, _⟩
        cases hf2
    | some idx2 =>
      constructor
      · intro h
        simp only [coOccur, h1, h2] at h
        by_cases hd : max idx1 idx2 - min idx1 idx2 < 500
        · rw [if_pos hd] at h
          exact ⟨idx1, idx2, rfl, rfl, hd, (Option.some_inj.mp h).symm⟩
        · rw [if_neg hd] at h
          cases h
      · rintro ⟨i1, i2, hf1, hf2, hd, hr⟩
        rw [Option.some_inj] at hf1 hf2
        subst hf1
        subst hf2
        simp only [coOccur, h1, h2]
        rw [if_pos hd, hr]

/-- Any emitted co-occurrence carries the pair's ids, the CO_OCCURS type,
and confidence equal to weight. -/
theorem coOccur_shape (now : String) (tl : List Char) (a b : Entity)
    (r : Relationship) (h : coOccur now tl a b = some r) :
    r.source_id = a.id ∧ r.target_id = b.id ∧ r.relation_type = .CO_OCCURS ∧
    r.confidence = r.weight := by
  rcases (coOccur_eq_some_iff now tl a b r).mp h with ⟨i1, i2, _, _, _, hr⟩
  subst hr
  exact ⟨rfl, rfl, rfl, rfl⟩

/-- Every relationship in `pairLoop` comes from an ordered position pair. -/
theorem pairLoop_mem (now : String) (tl : List Char) :
    ∀ (l : List Entity) (r : Relationship), r ∈ pairLoop now tl l →
      ∃ i j, i < j ∧ j < l.length ∧
        coOccur now tl (l.getD i dfltEntity) (l.getD j dfltEntity) = some r := by
  intro l
  induction l with
  | nil => intro r h; cases h
  | cons e1 rest ih =>
    intro r h
    rw [pairLoop] at h
    rcases List.mem_append.mp h with h' | h'
    · rcases List.mem_filterMap.mp h' with ⟨a, ha, hco⟩
      rcases List.mem_iff_getElem.mp ha with ⟨j', hj', rfl⟩
      refine ⟨0, j' + 1, Nat.succ_pos j', by simpa using hj', ?_⟩
      rw [List.getD_cons_zero, List.getD_cons_succ]
      rwa [List.getD_eq_getElem rest dfltEntity hj']
    · rcases ih r h' with ⟨i, j, hij, hj, hco⟩
      exact ⟨i + 1, j + 1, Nat.succ_lt_succ hij, Nat.succ_lt_succ hj,
        by rwa [List.getD_cons_succ, List.getD_cons_succ]⟩

/-- Every relationship in `pairLoop` has the id of some input entity as its
source. -/
theorem pairLoop_source (now : String) (tl : List Char) :
    ∀ (l : List Entity) (r : Relationship), r ∈ pairLoop now tl l →
      ∃ a ∈ l, r.source_id = a.id := by
  intro l
  induction l with
  | nil => intro r h; cases h
  | cons e1 rest ih =>
    intro r h
    rw [pairLoop] at h
    rcases List.mem_append.mp h with h' | h'
    · rcases List.mem_filterMap.mp h' with ⟨a, _, hco⟩
      exact ⟨e1, List.mem_cons_self e1 rest, (coOccur_shape now tl e1 a r hco).1⟩
    · rcases ih r h' with ⟨a, ha, hsrc⟩
      exact ⟨a, List.mem_cons_of_mem e1 ha, hsrc⟩

end LocalRag

namespace LocalRag

theorem getD_mem_of_lt {α : Type} (l : List α) (k : Nat) (d : α) (h : k < l.length) :
    l.getD k d ∈ l := by
  rw [List.getD_eq_getElem l d h]
  exact List.getElem_mem h

/-- Counting matches of a fixed target pair among the relationships emitted
for one source entity: exactly one when that pair co-occurs. -/
theorem filterMap_coOccur_count (now : String) (tl : List Char) (e1 : Entity) :
    ∀ (rest : List Entity), (rest.map Entity.id).Nodup →
      ∀ k, k < rest.length →
      (rest.filterMap (coOccur now tl e1)).countP
        (fun r => r.source_id == e1.id && r.target_id == (rest.getD k dfltEntity).id) =
      if (coOccur now tl e1 (rest.getD k dfltEntity)).isSome then 1 else 0 := by
  intro rest
  induction rest with
  | nil => intro _ k hk; simp at hk
  | cons b rest ih =>
    intro hnd k hk
    rw [List.map_cons, List.nodup_cons] at hnd
    cases k with
    | zero =>
      rw [List.getD_cons_zero]
      have hzero : (rest.filterMap (coOccur now tl e1)).countP
          (fun r => r.source_id == e1.id && r.target_id == b.id) = 0 := by
        rw [List.countP_eq_zero]
        intro r hr
        rcases List.mem_filterMap.mp hr with ⟨a, ha, hco⟩
        have htgt := (coOccur_shape now tl e1 a r hco).2.1
        have hbne : b.id ≠ a.id := by
          intro hcon
          exact hnd.1 (hcon ▸ List.mem_map_of_mem Entity.id ha)
        simp [htgt, Ne.symm hbne]
      cases hco : coOccur now tl e1 b with
      | none =>
        rw [List.filterMap_cons_none hco]
        simp only [Option.isSome_none, Bool.false_eq_true, if_neg, not_false_iff]
        exact hzero
      | some r0 =>
        rw [List.filterMap_cons_some hco]
        simp only [Option.isSome_some, if_pos]
        rw [List.countP_cons, hzero]
        have hsrc := (coOccur_shape now tl e1 b r0 hco).1
        have htgt := (coOccur_shape now tl e1 b r0 hco).2.1
        simp [hsrc, htgt]
    | succ k' =>
      rw [List.getD_cons_succ]
      have hk' : k' < rest.length := by simpa using hk
      have hrec := ih hnd.2 k' hk'
      have hmem : (rest.getD k' dfltEntity).id ∈ rest.map Entity.id :=
        List.mem_map_of_mem Entity.id (getD_mem_of_lt rest k' dfltEntity hk')
      cases hco : coOccur now tl e1 b with
      | none =>
        rw [List.filterMap_cons_none hco]
        exact hrec
      | some r0 =>
        rw [List.filterMap_cons_some hco, List.countP_cons, hrec]
        have htgt := (coOccur_shape now tl e1 b r0 hco).2.1
        have hbne : r0.target_id ≠ (rest.getD k' dfltEntity).id := by
          rw [htgt]
          intro hcon
          exact hnd.1 (hcon ▸ hmem)
        have hpredf : (r0.source_id == e1.id &&
            r0.target_id == (rest.getD k' dfltEntity).id) = false := by
          rw [beq_eq_false_iff_ne.mpr hbne, Bool.and_false]
        rw [hpredf]
        simp

/-- Per ordered position pair, the number of emitted relationships carrying
that pair's ids: one when the pair co-occurs, zero otherwise. -/
theorem pairLoop_count (now : String) (tl : List Char) :
    ∀ (l : List Entity), (l.map Entity.id).Nodup →
      ∀ i j, i < j → j < l.length →
      (pairLoop now tl l).countP
        (fun r => r.source_id == (l.getD i dfltEntity).id &&
                  r.target_id == (l.getD j dfltEntity).id) =
      if (coOccur now tl (l.getD i dfltEntity) (l.getD j dfltEntity)).isSome
      then 1 else 0 := by
  intro l
  induction l with
  | nil => intro _ i j _ hj; simp at hj
  | cons e1 rest ih =>
    intro hnd i j hij hj
    have hnd' := hnd
    rw [List.map_cons, List.nodup_cons] at hnd'
    rw [pairLoop, List.countP_append]
    cases i with
    | zero =>
      obtain ⟨j', rfl⟩ : ∃ j', j = j' + 1 := ⟨j - 1, by omega⟩
      rw [List.getD_cons_zero, List.getD_cons_succ]
      have hj' : j' < rest.length := by simpa using hj
      have htail : (pairLoop now tl rest).countP
          (fun r => r.source_id == e1.id &&
                    r.target_id == (rest.getD j' dfltEntity).id) = 0 := by
        rw [List.countP_eq_zero]
        intro r hr
        rcases pairLoop_source now tl rest r hr with ⟨a, ha, hsrc⟩
        have hne : e1.id ≠ a.id := by
          intro hcon
          exact hnd'.1 (hcon ▸ List.mem_map_of_mem Entity.id ha)
        simp [hsrc, Ne.symm hne]
      rw [htail, filterMap_coOccur_count now tl e1 rest hnd'.2 j' hj']
      omega
    | succ i' =>
      obtain ⟨j', rfl⟩ : ∃ j', j = j' + 1 := ⟨j - 1, by omega⟩
      rw [List.getD_cons_succ, List.getD_cons_succ]
      have hij' : i' < j' := by omega
      have hj' : j' < rest.length := by simpa using hj
      have hhead : (rest.filterMap (coOccur now tl e1)).countP
          (fun r => r.source_id == (rest.getD i' dfltEntity).id &&
                    r.target_id == (rest.getD j' dfltEntity).id) = 0 := by
        rw [List.countP_eq_zero]
        intro r hr
        rcases List.mem_filterMap.mp hr with ⟨a, _, hco⟩
        have hsrc := (coOccur_shape now tl e1 a r hco).1
        have hmem : (rest.getD i' dfltEntity).id ∈ rest.map Entity.id :=
          List.mem_map_of_mem Entity.id
            (getD_mem_of_lt rest i' dfltEntity (by omega))
        have hne : r.source_id ≠ (rest.getD i' dfltEntity).id := by
          rw [hsrc]
          intro hcon
          exact hnd'.1 (hcon ▸ hmem)
        intro hcon
        rw [Bool.and_eq_true, beq_iff_eq, beq_iff_eq] at hcon
        exact hne hcon.1
      rw [hhead, ih hnd'.2 i' j' hij' hj']
      omega

/-- C4: for every ordered pair of distinct-id entities,
`extract_relationships` emits exactly one relationship carrying that pair's
ids when the first case-insensitive occurrences of both names lie strictly
within 500 characters, and none otherwise; every emitted relationship stems
from such a pair, has type CO_OCCURS, `weight = max(0.3, 1 - distance/500)`
and `confidence = weight`. -/
theorem c4_theorem (now text : String) (entities : List Entity)
    (hnd : (entities.map Entity.id).Nodup) :
    (∀ r ∈ extract_relationships now text entities,
      ∃ i j, i < j ∧ j < entities.length ∧
        coOccur now (strLower text.toList) (entities.getD i dfltEntity)
          (entities.getD j dfltEntity) = some r) ∧
    (∀ i j, i < j → j < entities.length →
      (extract_relationships now text entities).countP
        (fun r => r.source_id == (entities.getD i dfltEntity).id &&
                  r.target_id == (entities.getD j dfltEntity).id) =
      if (coOccur now (strLower text.toList) (entities.getD i dfltEntity)
           (entities.getD j dfltEntity)).isSome then 1 else 0) ∧
    (∀ (e1 e2 : Entity) (r : Relationship),
      coOccur now (strLower text.toList) e1 e2 = some r ↔
      ∃ idx1 idx2 : Nat,
        pyFind (strLower text.toList) (strLower e1.name.toList) = some idx1 ∧
        pyFind (strLower text.toList) (strLower e2.name.toList) = some idx2 ∧
        max idx1 idx2 - min idx1 idx2 < 500 ∧
        r = { source_id := e1.id, target_id := e2.id, relation_type := .CO_OCCURS,
              confidence := max (3 / 10)
                (1 - ((max idx1 idx2 - min idx1 idx2 : Nat) : ℚ) / 500),
              weight := max (3 / 10)
                (1 - ((max idx1 idx2 - min idx1 idx2 : Nat) : ℚ) / 500),
              properties := [], timestamp := now }) :=
  ⟨fun r hr => pairLoop_mem now (strLower text.toList) entities r hr,
   fun i j hij hj => pairLoop_count now (strLower text.toList) entities hnd i j hij hj,
   fun e1 e2 r => coOccur_eq_some_iff now (strLower text.toList) e1 e2 r⟩

/-- C4 (witness): a concrete instance with two distinct-id entities. -/
theorem c4_witness :
    ((([entA, entB] : List Entity).map Entity.id).Nodup) ∧
    (∀ r ∈ extract_relationships "T" "A B" [entA, entB],
      ∃ i j, i < j ∧ j < ([entA, entB] : List Entity).length ∧
        coOccur "T" (strLower "A B".toList) (([entA, entB] : List Entity).getD i dfltEntity)
          (([entA, entB] : List Entity).getD j dfltEntity) = some r) :=
  ⟨by decide, ( c4_theorem "T" "A B" [entA, entB] (by decide)).1⟩

end LocalRag
